import Mathlib

/-!
# Cest.c: the registry of tests and its runner

A shallow embedding of `Source/Cest.c`.

* C strings are lists of characters read up to the first NUL (`cstr`); the
  fixed `char[32]` and `char[216]` members of `struct cest` are lists of that
  length, filled by `STRCPY` exactly as `strncpy` and the terminator store do.
* The heap is typed: `struct cest` objects and `struct cest_node` objects live
  in two growing tables.  A pointer (the C types `cest` and `cest_node`) is a
  natural number: the 1-based index into its table, and `0` is `NULL`.
  `malloc` hands out the next free index and never fails.
* A test function is a function without arguments that yields a `cest_state`;
  it does not touch the memory.
* `int` is 32 bits wide; every `++` and the final subtraction are reduced with
  `int_wrap` (two's complement wrap-around).
* A function that may dereference `NULL`, call `exit` or loop forever returns a
  `Result`.  Recursion and loops over the heap carry fuel, always started at
  the number of allocated nodes plus one, which is enough for every chain that
  ends in `NULL`.
* Standard output is the list of the `printf` calls made, each with its
  arguments; `Printf.render` gives the text of a call.
-/

set_option autoImplicit false

namespace CestC

/-! ## C strings -/

/-- The terminator of a C string. -/
def NUL : Char := Char.ofNat 0

/-- The C string held in a character array: the characters before the first
NUL (or the whole array when it holds none). -/
def cstr : List Char → List Char
  | [] => []
  | c :: cs => if c = NUL then [] else c :: cstr cs

/-- Model of `strcmp`: the arrays are compared character by character up to
the first difference or a common NUL; reading past the end of a list reads the
terminator.  The result is the difference of the first two characters that
differ, `0` when there is none. -/
def strcmp : List Char → List Char → Int
  | [], [] => 0
  | [], y :: _ => 0 - (y.toNat : Int)
  | x :: _, [] => (x.toNat : Int)
  | x :: xs, y :: ys =>
    if x = y then (if x = NUL then 0 else strcmp xs ys)
    else (x.toNat : Int) - (y.toNat : Int)

/-- Model of `strncpy(TO, FROM, n)`: the `n` characters written to `TO`.
Characters of `FROM` are copied until its terminator is met or `n` characters
are written; the rest of `TO` is filled with NUL. -/
def strncpy : Nat → List Char → List Char
  | 0, _ => []
  | n + 1, [] => NUL :: strncpy n []
  | n + 1, c :: cs => if c = NUL then NUL :: strncpy n [] else c :: strncpy n cs

/-- Model of the macro `STRCPY(TO, FROM)` for a destination of `size` bytes:
`strncpy(TO, FROM, sizeof(TO)); TO[sizeof(TO) - 1] = 0`. -/
def STRCPY (size : Nat) (FROM : List Char) : List Char :=
  (strncpy size FROM).set (size - 1) NUL

/-! ## Machine integers -/

/-- Reduction of an integer into the range of a 32-bit `int`. -/
def int_wrap (i : Int) : Int := (i + 2147483648) % 4294967296 - 2147483648

/-! ## Data -/

/-- The `enum cest_state`. -/
inductive cest_state where
  | failure
  | success
  | pending
  deriving DecidableEq, Repr

/-- The integer value of an enumerator of `cest_state`. -/
def cest_state.toInt : cest_state → Int
  | .failure => 0
  | .success => 1
  | .pending => 2

/-- The `struct cest`.  The test function is a function without arguments that
yields a state. -/
structure struct_cest where
  function : Unit → cest_state
  namespace_ : List Char
  name : List Char

/-- The `struct cest_node`. -/
structure struct_cest_node where
  cest : Nat
  next : Nat
  deriving DecidableEq, Repr

/-- The memory of the program: the allocated `struct cest` objects, the
allocated `struct cest_node` objects and the member `Cest.first`. -/
structure Memory where
  cests : List struct_cest
  nodes : List struct_cest_node
  first : Nat

/-- The static initialiser of `Cest`: nothing allocated, `.first = NULL`. -/
def Cest_init : Memory := { cests := [], nodes := [], first := 0 }

/-- How a call ends. -/
inductive Result (α : Type) where
  | ok (value : α)
  | exited (status : Int)
  | nullAccess
  | badAccess
  | timeout
  deriving DecidableEq, Repr

/-- Sequencing of two steps: the second runs only when the first returned. -/
def Result.bind {α β : Type} : Result α → (α → Result β) → Result β
  | .ok a, f => f a
  | .exited s, _ => .exited s
  | .nullAccess, _ => .nullAccess
  | .badAccess, _ => .badAccess
  | .timeout, _ => .timeout

/-- Reading `*p` for a `cest p`. -/
def Memory.cest_at (m : Memory) (p : Nat) : Result struct_cest :=
  if p = 0 then .nullAccess
  else match m.cests[p - 1]? with
    | some c => .ok c
    | none => .badAccess

/-- Reading `*p` for a `cest_node p`. -/
def Memory.node_at (m : Memory) (p : Nat) : Result struct_cest_node :=
  if p = 0 then .nullAccess
  else match m.nodes[p - 1]? with
    | some n => .ok n
    | none => .badAccess

/-- The fuel given to every walk over the nodes. -/
def Memory.fuel (m : Memory) : Nat := m.nodes.length + 1

/-! ## Output -/

/-- The constant `ANSIEscapes.failure`. -/
def ANSIEscapes.failure : String := "\x1b[31m"

/-- The constant `ANSIEscapes.success`. -/
def ANSIEscapes.success : String := "\x1b[32m"

/-- The constant `ANSIEscapes.pending`. -/
def ANSIEscapes.pending : String := "\x1b[33m"

/-- The constant `ANSIEscapes.reset`. -/
def ANSIEscapes.reset : String := "\x1b[0m"

/-- One call of `printf` by `Cest__run_all`, with its arguments.
`status a b c d` is `printf("%s->%s%s%s()\n", a, b, c, d)` and
`summary a b c d` is `printf("%s%d successes%s (of %d)\n", a, b, c, d)`. -/
inductive Printf where
  | status (arg1 arg2 arg3 arg4 : String)
  | summary (arg1 : String) (arg2 : Int) (arg3 : String) (arg4 : Int)
  deriving DecidableEq, Repr

/-- The text a call of `printf` writes. -/
def Printf.render : Printf → String
  | .status a b c d => a ++ "->" ++ b ++ c ++ d ++ "()\n"
  | .summary a b c d => a ++ toString b ++ " successes" ++ c ++ " (of " ++ toString d ++ ")\n"

/-! ## The functions of `Cest.c` -/

/-- Model of `cest__execute`: `return this->function();`. -/
def cest__execute (m : Memory) (this : Nat) : Result cest_state :=
  (m.cest_at this).bind fun c => .ok (c.function ())

/-- The variables of `Cest__run_all` that the loop changes, and the calls of
`printf` made so far. -/
structure RunState where
  total : Int
  successes : Int
  pends : Int
  out : List Printf

/-- One pass through the body of the `for` loop of `Cest__run_all`, followed
by its increment `total++` (the step `current_node = current_node->next` is in
`Cest__run_all_loop`). -/
def Cest__run_all_body (current : struct_cest) (return_value : cest_state)
    (st : RunState) : RunState :=
  let successes := if return_value.toInt ≠ 0 then int_wrap (st.successes + 1) else st.successes
  let pends := if return_value.toInt - 1 ≠ 0 then int_wrap (st.pends + 1) else st.pends
  let line := Printf.status (String.mk (cstr current.namespace_))
    (if return_value.toInt ≠ 0 then
      (if return_value.toInt - 1 ≠ 0 then ANSIEscapes.pending else ANSIEscapes.success)
     else ANSIEscapes.failure)
    (String.mk (cstr current.name)) ANSIEscapes.reset
  { total := int_wrap (st.total + 1), successes := successes, pends := pends,
    out := st.out ++ [line] }

/-- The `for` loop of `Cest__run_all`, from the node `current_node` on. -/
def Cest__run_all_loop (m : Memory) : Nat → Nat → RunState → Result RunState
  | 0, current_node, st => if current_node = 0 then .ok st else .timeout
  | fuel + 1, current_node, st =>
    if current_node = 0 then .ok st
    else
      (m.node_at current_node).bind fun node =>
      (cest__execute m node.cest).bind fun return_value =>
      (m.cest_at node.cest).bind fun current =>
      Cest__run_all_loop m fuel node.next (Cest__run_all_body current return_value st)

/-- The call of `printf` after the loop of `Cest__run_all`. -/
def Cest__run_all_summary (st : RunState) : Printf :=
  Printf.summary
    (if st.successes < st.total then ANSIEscapes.failure
     else (if st.pends ≠ 0 then ANSIEscapes.pending else ANSIEscapes.success))
    st.successes ANSIEscapes.reset st.total

/-- Model of `Cest__run_all`: the calls of `printf` made, in order, and the
value returned. -/
def Cest__run_all (m : Memory) : Result (List Printf × Int) :=
  (Cest__run_all_loop m m.fuel m.first
      { total := 0, successes := 0, pends := 0, out := [] }).bind fun st =>
    .ok (st.out ++ [Cest__run_all_summary st], int_wrap (st.total - st.successes))

/-- Model of `_Cest__of`. -/
def _Cest__of (m : Memory) (namespace_ name : List Char) :
    Nat → Nat → Result Nat
  | 0, _ => .timeout
  | fuel + 1, last_node =>
    (m.node_at last_node).bind fun node =>
    (m.cest_at node.cest).bind fun last =>
    if strcmp last.namespace_ namespace_ = 0 ∧ strcmp last.name name = 0 then .ok node.cest
    else if node.next ≠ 0 then _Cest__of m namespace_ name fuel node.next
    else .exited 1337

/-- Model of `Cest__of`. -/
def Cest__of (m : Memory) (namespace_ name : List Char) : Result Nat :=
  _Cest__of m namespace_ name m.fuel m.first

/-- Model of `Cest__create`: the new object is allocated, filled and its
address returned. -/
def Cest__create (m : Memory) (namespace_ name : List Char)
    (function : Unit → cest_state) : Nat × Memory :=
  let this : struct_cest :=
    { function := function, namespace_ := STRCPY 32 namespace_, name := STRCPY 216 name }
  (m.cests.length + 1, { m with cests := m.cests ++ [this] })

/-- The `while` loop of `Cest__enroll`: the last node of the chain that starts
at `current`. -/
def Cest__enroll_last (m : Memory) : Nat → Nat → Result Nat
  | 0, _ => .timeout
  | fuel + 1, current =>
    (m.node_at current).bind fun node =>
    if node.next ≠ 0 then Cest__enroll_last m fuel node.next else .ok current

/-- Model of `Cest__enroll`. -/
def Cest__enroll (m : Memory) (a_cest : Nat) : Result Memory :=
  let this : Nat := m.nodes.length + 1
  let m1 : Memory := { m with nodes := m.nodes ++ [{ cest := a_cest, next := 0 }] }
  if m1.first = 0 then .ok { m1 with first := this }
  else
    (Cest__enroll_last m1 m1.fuel m1.first).bind fun current =>
    (m1.node_at current).bind fun node =>
    .ok { m1 with nodes := m1.nodes.set (current - 1) { node with next := this } }

/-- Model of the constructor function `Cest_registrar_for__NAMESPACE__test__NAME`
that the macro `CEST(NAMESPACE, NAME)` defines:
`Cest.enroll(Cest.create(#NAMESPACE, #NAME, function))`. -/
def Cest_registrar_for (m : Memory) (namespace_ name : List Char)
    (function : Unit → cest_state) : Result Memory :=
  let created := Cest__create m namespace_ name function
  Cest__enroll created.2 created.1

/-- Model of `main`: `return Cest.run_all();`. -/
def main (m : Memory) : Result (List Printf × Int) := Cest__run_all m

/-- Model of `_Cest__of` with the memory passed through the call: the pointer
returned and the memory the call leaves.  Each step hands on the memory it was
given, as the function reads `last_node->cest`, `last->namespace`,
`last->name` and `last_node->next` and has no assignment through a pointer. -/
def _Cest__of_state (namespace_ name : List Char) :
    Nat → Memory → Nat → Result (Nat × Memory)
  | 0, _, _ => .timeout
  | fuel + 1, m, last_node =>
    (m.node_at last_node).bind fun node =>
    (m.cest_at node.cest).bind fun last =>
    if strcmp last.namespace_ namespace_ = 0 ∧ strcmp last.name name = 0 then .ok (node.cest, m)
    else if node.next ≠ 0 then _Cest__of_state namespace_ name fuel m node.next
    else .exited 1337

/-- Model of `Cest__of` with the memory passed through the call. -/
def Cest__of_state (m : Memory) (namespace_ name : List Char) : Result (Nat × Memory) :=
  _Cest__of_state namespace_ name m.fuel m m.first

/-- Two calls of `Cest.of` with the same arguments, one after the other:
`a = Cest.of(namespace, name); b = Cest.of(namespace, name);`.  The second call
runs in the memory the first call leaves; the result is the two pointers and
the memory after the second call. -/
def Cest__of_twice (m : Memory) (namespace_ name : List Char) :
    Result ((Nat × Nat) × Memory) :=
  (Cest__of_state m namespace_ name).bind fun first =>
  (Cest__of_state first.2 namespace_ name).bind fun second =>
  .ok ((first.1, second.1), second.2)

/-! ## The macros for the body of a test

The body of a test, from some statement on, is run in a state `σ` of the
variables it uses; it ends with a `return` and leaves the variables in some
state. -/

/-- The rest of a test body: the state it returns and the variables it
leaves. -/
abbrev Body (σ : Type) := σ → cest_state × σ

/-- The macro `FAIL`: `return failure`. -/
def FAIL {σ : Type} : Body σ := fun s => (cest_state.failure, s)

/-- The macro `SUCCEED`: `return success`. -/
def SUCCEED {σ : Type} : Body σ := fun s => (cest_state.success, s)

/-- The macro `PEND`: `return pending`. -/
def PEND {σ : Type} : Body σ := fun s => (cest_state.pending, s)

/-- The macro `ASSERT(FACT)` followed by the rest of the body:
`if (!(FACT)) FAIL; rest`. -/
def ASSERT {σ : Type} (FACT : σ → Bool) (rest : Body σ) : Body σ :=
  fun s => if !(FACT s) then FAIL s else rest s

/-- A body made of one `ASSERT` for each fact of the list, in order, and ended
by `SUCCEED`. -/
def asserted_body {σ : Type} (facts : List (σ → Bool)) : Body σ :=
  facts.foldr ASSERT SUCCEED

/-! ## Registries -/

/-- `chain nodes p cs`: following `next` from the node pointer `p` ends in
`NULL` and the nodes met hold, in order, the pointers `cs`. -/
def chain (nodes : List struct_cest_node) : Nat → List Nat → Prop
  | p, [] => p = 0
  | p, c :: cs =>
    p ≠ 0 ∧ ∃ n, nodes[p - 1]? = some n ∧ n.cest = c ∧ chain nodes n.next cs

/-- `Registry m l`: the chain that starts at `Cest.first` holds, in order, the
pointers of `l`, and each of them points to the allocated object paired with
it.  An entry of `l` is an enrolled record: its address and its contents. -/
def Registry (m : Memory) (l : List (Nat × struct_cest)) : Prop :=
  chain m.nodes m.first (l.map Prod.fst) ∧ ∀ e ∈ l, m.cest_at e.1 = .ok e.2

/-- The outcome of an enrolled test: what its function returns. -/
def outcome (e : Nat × struct_cest) : cest_state := e.2.function ()

/-- The comparison made by `_Cest__of` on a record: both `strcmp` are `0`. -/
def matches_pair (namespace_ name : List Char) (e : Nat × struct_cest) : Prop :=
  strcmp e.2.namespace_ namespace_ = 0 ∧ strcmp e.2.name name = 0

/-- The stored pair of a record equals `(namespace_, name)` as C strings. -/
def same_pair (namespace_ name : List Char) (e : Nat × struct_cest) : Prop :=
  cstr e.2.namespace_ = cstr namespace_ ∧ cstr e.2.name = cstr name

instance (namespace_ name : List Char) : DecidablePred (matches_pair namespace_ name) :=
  fun _ => inferInstanceAs (Decidable (_ ∧ _))

instance (namespace_ name : List Char) : DecidablePred (same_pair namespace_ name) :=
  fun _ => inferInstanceAs (Decidable (_ ∧ _))

/-- The colour of a state as the specification words it: red for failure,
green for success, yellow for pending. -/
def spec_color : cest_state → String
  | .failure => "\x1b[31m"
  | .success => "\x1b[32m"
  | .pending => "\x1b[33m"

/-- The `printf` call of the status line of an enrolled record, as the
specification words it: the stored namespace, the colour of the record's own
outcome, the stored name, the reset escape. -/
def spec_status (e : Nat × struct_cest) : Printf :=
  Printf.status (String.mk (cstr e.2.namespace_)) (spec_color (outcome e))
    (String.mk (cstr e.2.name)) "\x1b[0m"

/-- The text of a status line as the specification words it:
`namespace->COLOR name() RESET` without the blanks, then a line break; the
`()` stands before the reset escape. -/
def spec_status_text (namespace_ color name reset : String) : String :=
  namespace_ ++ "->" ++ color ++ name ++ "()" ++ reset ++ "\n"

/-- The colour of the summary line as the specification words it: red when
the printed successes are fewer than the printed total, otherwise yellow when
a test was pending, otherwise green. -/
def spec_summary_color (successes total : Int) (l : List (Nat × struct_cest)) : String :=
  if successes < total then "\x1b[31m"
  else if l.any (fun e => decide (outcome e = .pending)) then "\x1b[33m"
  else "\x1b[32m"

/-- Successive calls of `Cest__enroll`, one for each pointer of the list. -/
def enrollAll (m : Memory) : List Nat → Result Memory
  | [] => .ok m
  | c :: cs => (Cest__enroll m c).bind fun m1 => enrollAll m1 cs

/-! ## Sample memories -/

/-- A `struct cest` as `Cest__create` fills it, for a test function that
always ends in the state `o`. -/
def sample (namespace_ name : String) (o : cest_state) : struct_cest :=
  struct_cest.mk (fun _ => o) (STRCPY 32 namespace_.toList) (STRCPY 216 name.toList)

/-- The memory after three tests were created and enrolled in this order: one
that succeeds, one that fails, one that is pending. -/
def scenarioC : Memory :=
  Memory.mk
    [sample "LL" "allocate" .success, sample "LL" "append" .failure,
      sample "LL" "remove" .pending]
    [struct_cest_node.mk 1 2, struct_cest_node.mk 2 3, struct_cest_node.mk 3 0] 1

/-- The enrolled records of `scenarioC`, in order. -/
def scenarioC_records : List (Nat × struct_cest) :=
  [(1, sample "LL" "allocate" .success), (2, sample "LL" "append" .failure),
    (3, sample "LL" "remove" .pending)]

/-- The memory after three tests were created and enrolled, the second and the
third under the same pair of names. -/
def scenarioDup : Memory :=
  Memory.mk
    [sample "LL" "allocate" .success, sample "LL" "append" .failure,
      sample "LL" "append" .success]
    [struct_cest_node.mk 1 2, struct_cest_node.mk 2 3, struct_cest_node.mk 3 0] 1

/-- The enrolled records of `scenarioDup`, in order. -/
def scenarioDup_records : List (Nat × struct_cest) :=
  [(1, sample "LL" "allocate" .success), (2, sample "LL" "append" .failure),
    (3, sample "LL" "append" .success)]

/-- A name of 220 characters. -/
def longName : List Char := List.replicate 220 'b'

/-- A namespace of 33 characters. -/
def longNamespace : List Char := List.replicate 33 'a'

/-- A memory with two allocated records and no enrolled test: the test of
record `1` succeeds, the test of record `2` fails. -/
def twoRecords : Memory :=
  Memory.mk [sample "LL" "passes" .success, sample "LL" "fails" .failure] [] 0

/-! ## Lemmas -/

@[simp] theorem Result.bind_ok {α β : Type} (a : α) (f : α → Result β) :
    (Result.ok a).bind f = f a := rfl

theorem int_wrap_of_range (i : Int) (h0 : -2147483648 ≤ i) (h1 : i < 2147483648) :
    int_wrap i = i := by
  unfold int_wrap; omega

theorem int_wrap_succ (i : Int) : int_wrap (int_wrap i + 1) = int_wrap (i + 1) := by
  unfold int_wrap; omega

theorem int_wrap_sub (i j : Int) : int_wrap (int_wrap i - int_wrap j) = int_wrap (i - j) := by
  unfold int_wrap; omega

theorem chain_nil (nodes : List struct_cest_node) (p : Nat) :
    chain nodes p [] ↔ p = 0 := Iff.rfl

theorem chain_cons (nodes : List struct_cest_node) (p : Nat) (c : Nat) (cs : List Nat) :
    chain nodes p (c :: cs) ↔
      p ≠ 0 ∧ ∃ n, nodes[p - 1]? = some n ∧ n.cest = c ∧ chain nodes n.next cs := Iff.rfl

theorem chain_unique (nodes : List struct_cest_node) :
    ∀ (cs cs2 : List Nat) (p : Nat), chain nodes p cs → chain nodes p cs2 → cs = cs2
  | [], [], _, _, _ => rfl
  | [], _ :: _, _, h1, h2 => absurd h1 h2.1
  | _ :: _, [], _, h1, h2 => absurd h2 h1.1
  | c :: cs, c2 :: cs2, p, h1, h2 => by
    obtain ⟨_, n, hn, hc, hr⟩ := h1
    obtain ⟨_, n2, hn2, hc2, hr2⟩ := h2
    rw [hn] at hn2
    cases hn2
    rw [← hc, ← hc2, chain_unique nodes cs cs2 n.next hr hr2]

/-- The node pointers met on a chain are distinct allocated addresses. -/
theorem chain_path (nodes : List struct_cest_node) :
    ∀ (cs : List Nat) (p : Nat), chain nodes p cs →
      ∃ ps : List Nat, ps.length = cs.length ∧ ps.Nodup ∧
        (∀ q ∈ ps, (1 : Nat) ≤ q ∧ q ≤ nodes.length) ∧
        (∀ q ∈ ps, ∃ cs2, chain nodes q cs2 ∧ cs2.length ≤ cs.length)
  | [], _, _ => ⟨[], rfl, List.nodup_nil, by simp, by simp⟩
  | c :: cs, p, h => by
    obtain ⟨hp, n, hn, hc, hr⟩ := h
    obtain ⟨ps, hlen, hnd, hrange, hch⟩ := chain_path nodes cs n.next hr
    refine ⟨p :: ps, by simp [hlen], ?_, ?_, ?_⟩
    · refine List.nodup_cons.mpr ⟨?_, hnd⟩
      intro hmem
      obtain ⟨cs2, h2, hle⟩ := hch p hmem
      have := chain_unique nodes _ _ p h2 ((chain_cons nodes p c cs).mpr ⟨hp, n, hn, hc, hr⟩)
      rw [this] at hle
      simp at hle
    · intro q hq
      rcases List.mem_cons.mp hq with rfl | hq
      · obtain ⟨hlt, _⟩ := List.getElem?_eq_some_iff.mp hn
        omega
      · exact hrange q hq
    · intro q hq
      rcases List.mem_cons.mp hq with rfl | hq
      · exact ⟨c :: cs, ⟨hp, n, hn, hc, hr⟩, le_refl _⟩
      · obtain ⟨cs2, h2, hle⟩ := hch q hq
        exact ⟨cs2, h2, Nat.le_succ_of_le hle⟩

theorem chain_length_le (nodes : List struct_cest_node) (cs : List Nat) (p : Nat)
    (h : chain nodes p cs) : cs.length ≤ nodes.length := by
  obtain ⟨ps, hlen, hnd, hrange, _⟩ := chain_path nodes cs p h
  have h1 : ps.toFinset ⊆ Finset.Icc 1 nodes.length := by
    intro q hq
    have := hrange q (List.mem_toFinset.mp hq)
    simp [Finset.mem_Icc]; omega
  have h2 := Finset.card_le_card h1
  rw [List.toFinset_card_of_nodup hnd] at h2
  rw [Nat.card_Icc] at h2
  omega

theorem node_at_of_getElem (m : Memory) (p : Nat) (n : struct_cest_node) (hp : p ≠ 0)
    (hn : m.nodes[p - 1]? = some n) : m.node_at p = .ok n := by
  simp [Memory.node_at, hp, hn]

theorem execute_of_cest_at (m : Memory) (e : Nat × struct_cest) (h : m.cest_at e.1 = .ok e.2) :
    cest__execute m e.1 = .ok (outcome e) := by
  simp [cest__execute, h, outcome]

/-- On a registry the loop of `Cest__run_all` ends and has run the body once for
each enrolled record, in order. -/
theorem run_all_loop_ok (m : Memory) :
    ∀ (l : List (Nat × struct_cest)) (p fuel : Nat) (st : RunState),
      chain m.nodes p (l.map Prod.fst) → (∀ e ∈ l, m.cest_at e.1 = .ok e.2) →
      l.length ≤ fuel →
      Cest__run_all_loop m fuel p st
        = .ok (l.foldl (fun s e => Cest__run_all_body e.2 (outcome e) s) st)
  | [], p, fuel, st, hc, _, _ => by
    have hp : p = 0 := hc
    cases fuel <;> simp [Cest__run_all_loop, hp]
  | e :: l, p, 0, st, _, _, hf => by simp at hf
  | e :: l, p, fuel + 1, st, hc, hr, hf => by
    obtain ⟨hp, n, hn, hcest, hrest⟩ := hc
    have he : m.cest_at e.1 = .ok e.2 := hr e (List.mem_cons_self _ _)
    have hex := execute_of_cest_at m e he
    rw [← hcest] at he hex
    have ih := run_all_loop_ok m l n.next fuel (Cest__run_all_body e.2 (outcome e) st) hrest
      (fun x hx => hr x (List.mem_cons_of_mem _ hx)) (by simpa using hf)
    simp [Cest__run_all_loop, hp, node_at_of_getElem m p n hp hn, he, hex, ih]

theorem run_all_body_eq (r : struct_cest) (o : cest_state) (st : RunState) :
    Cest__run_all_body r o st =
      { total := int_wrap (st.total + 1),
        successes := if o ≠ .failure then int_wrap (st.successes + 1) else st.successes,
        pends := if o ≠ .success then int_wrap (st.pends + 1) else st.pends,
        out := st.out ++ [Printf.status (String.mk (cstr r.namespace_)) (spec_color o)
          (String.mk (cstr r.name)) "\x1b[0m"] } := by
  cases o <;> simp [Cest__run_all_body, cest_state.toInt, spec_color, ANSIEscapes.failure,
    ANSIEscapes.success, ANSIEscapes.pending, ANSIEscapes.reset]

/-- The counters and the output after the loop has run over the records `l`. -/
theorem run_all_fold (l : List (Nat × struct_cest)) :
    ∀ (st : RunState) (t s q : Int), st.total = int_wrap t → st.successes = int_wrap s →
      st.pends = int_wrap q →
      (l.foldl (fun s e => Cest__run_all_body e.2 (outcome e) s) st).total
          = int_wrap (t + l.length) ∧
      (l.foldl (fun s e => Cest__run_all_body e.2 (outcome e) s) st).successes
          = int_wrap (s + l.countP (fun e => decide (outcome e ≠ .failure))) ∧
      (l.foldl (fun s e => Cest__run_all_body e.2 (outcome e) s) st).pends
          = int_wrap (q + l.countP (fun e => decide (outcome e ≠ .success))) ∧
      (l.foldl (fun s e => Cest__run_all_body e.2 (outcome e) s) st).out
          = st.out ++ l.map spec_status := by
  induction l with
  | nil => intro st t s q ht hs hq; simp [ht, hs, hq]
  | cons e l ih =>
    intro st t s q ht hs hq
    rw [List.foldl_cons, run_all_body_eq]
    by_cases hf : outcome e = .failure <;> by_cases hsu : outcome e = .success
    · rw [hf] at hsu; cases hsu
    · have := ih (RunState.mk (int_wrap (st.total + 1)) st.successes (int_wrap (st.pends + 1))
          (st.out ++ [spec_status e])) (t + 1) s (q + 1)
        (by simp [ht, int_wrap_succ]) hs (by simp [hq, int_wrap_succ])
      simp [hf, hsu, List.countP_cons, spec_status] at this ⊢
      refine ⟨?_, ?_, ?_, ?_⟩
      · rw [this.1]; congr 1; omega
      · exact this.2.1
      · rw [this.2.2.1]; congr 1; omega
      · exact this.2.2.2
    · have := ih (RunState.mk (int_wrap (st.total + 1)) (int_wrap (st.successes + 1)) st.pends
          (st.out ++ [spec_status e])) (t + 1) (s + 1) q
        (by simp [ht, int_wrap_succ]) (by simp [hs, int_wrap_succ]) hq
      simp [hf, hsu, List.countP_cons, spec_status] at this ⊢
      refine ⟨?_, ?_, ?_, ?_⟩
      · rw [this.1]; congr 1; omega
      · rw [this.2.1]; congr 1; omega
      · exact this.2.2.1
      · exact this.2.2.2
    · have := ih (RunState.mk (int_wrap (st.total + 1)) (int_wrap (st.successes + 1))
          (int_wrap (st.pends + 1)) (st.out ++ [spec_status e])) (t + 1) (s + 1) (q + 1)
        (by simp [ht, int_wrap_succ]) (by simp [hs, int_wrap_succ]) (by simp [hq, int_wrap_succ])
      simp [hf, hsu, List.countP_cons, spec_status] at this ⊢
      refine ⟨?_, ?_, ?_, ?_⟩
      · rw [this.1]; congr 1; omega
      · rw [this.2.1]; congr 1; omega
      · rw [this.2.2.1]; congr 1; omega
      · exact this.2.2.2

theorem countP_failure_add (l : List (Nat × struct_cest)) :
    l.countP (fun e => decide (outcome e = .failure))
      + l.countP (fun e => decide (outcome e ≠ .failure)) = l.length := by
  induction l with
  | nil => rfl
  | cons e l ih =>
    by_cases hf : outcome e = .failure <;> simp [List.countP_cons, hf] at ih ⊢ <;> omega

/-- What `Cest__run_all` does on a registry: it returns, the status calls are
those of the records in order, followed by the summary call on the final
counters, and the value returned is the wrapped number of failures. -/
theorem run_all_registry (m : Memory) (l : List (Nat × struct_cest)) (h : Registry m l) :
    Cest__run_all m = .ok
      (l.map spec_status ++ [Cest__run_all_summary
        (RunState.mk (int_wrap l.length)
          (int_wrap (l.countP (fun e => decide (outcome e ≠ .failure))))
          (int_wrap (l.countP (fun e => decide (outcome e ≠ .success))))
          (l.map spec_status))],
       int_wrap (l.countP (fun e => decide (outcome e = .failure)))) := by
  have hlen : l.length ≤ m.fuel := by
    have := chain_length_le m.nodes _ _ h.1
    simp [Memory.fuel] at this ⊢
    omega
  have hloop := run_all_loop_ok m l m.first m.fuel (RunState.mk 0 0 0 []) h.1 h.2 hlen
  obtain ⟨h1, h2, h3, h4⟩ := run_all_fold l (RunState.mk 0 0 0 []) 0 0 0 rfl rfl rfl
  simp only [zero_add, List.nil_append] at h1 h2 h3 h4
  have hst : l.foldl (fun s e => Cest__run_all_body e.2 (outcome e) s) (RunState.mk 0 0 0 [])
      = RunState.mk (int_wrap l.length)
          (int_wrap (l.countP (fun e => decide (outcome e ≠ .failure))))
          (int_wrap (l.countP (fun e => decide (outcome e ≠ .success))))
          (l.map spec_status) := by
    rw [← h1, ← h2, ← h3, ← h4]
  unfold Cest__run_all
  rw [hloop, hst]
  simp only [Result.bind_ok]
  rw [int_wrap_sub]
  have := countP_failure_add l
  congr 3
  omega

/-- What `_Cest__of` does on a chain that is not empty: it returns the pointer
of the first record on which both `strcmp` are `0`, and calls `exit(1337)` when
there is none. -/
theorem of_chain (m : Memory) (namespace_ name : List Char) :
    ∀ (l : List (Nat × struct_cest)) (p fuel : Nat), l ≠ [] →
      chain m.nodes p (l.map Prod.fst) → (∀ e ∈ l, m.cest_at e.1 = .ok e.2) →
      l.length ≤ fuel →
      _Cest__of m namespace_ name fuel p =
        match l.find? (fun e => decide (matches_pair namespace_ name e)) with
        | some e => .ok e.1
        | none => .exited 1337
  | [], _, _, hne, _, _, _ => absurd rfl hne
  | e :: l, p, 0, _, _, _, hf => by simp at hf
  | e :: l, p, fuel + 1, _, hc, hr, hf => by
    obtain ⟨hp, n, hn, hcest, hrest⟩ := hc
    have he : m.cest_at n.cest = .ok e.2 := by
      rw [hcest]; exact hr e (List.mem_cons_self _ _)
    have hstep : _Cest__of m namespace_ name (fuel + 1) p =
        if strcmp e.2.namespace_ namespace_ = 0 ∧ strcmp e.2.name name = 0 then .ok n.cest
        else if n.next ≠ 0 then _Cest__of m namespace_ name fuel n.next
        else .exited 1337 := by
      simp only [_Cest__of, node_at_of_getElem m p n hp hn, he, Result.bind_ok]
    rw [hstep]
    by_cases hm : matches_pair namespace_ name e
    · have hm2 := hm
      unfold matches_pair at hm2
      rw [if_pos hm2, List.find?_cons_of_pos _ (by simpa using hm), hcest]
    · have hm2 := hm
      unfold matches_pair at hm2
      rw [if_neg hm2, List.find?_cons_of_neg _ (by simpa using hm)]
      cases l with
      | nil =>
        have hnext : n.next = 0 := hrest
        simp [hnext]
      | cons e2 l2 =>
        have hnext : n.next ≠ 0 := hrest.1
        rw [if_pos hnext]
        exact of_chain m namespace_ name (e2 :: l2) n.next fuel (by simp) hrest
          (fun x hx => hr x (List.mem_cons_of_mem _ hx)) (by simpa using hf)

theorem of_registry (m : Memory) (l : List (Nat × struct_cest)) (namespace_ name : List Char)
    (h : Registry m l) (hne : l ≠ []) :
    Cest__of m namespace_ name =
      match l.find? (fun e => decide (matches_pair namespace_ name e)) with
      | some e => .ok e.1
      | none => .exited 1337 := by
  have hlen : l.length ≤ m.fuel := by
    have := chain_length_le m.nodes _ _ h.1
    simp [Memory.fuel] at this ⊢
    omega
  exact of_chain m namespace_ name l m.first m.fuel hne h.1 h.2 hlen

theorem toNat_eq_zero_iff (c : Char) : (c.toNat : Int) = 0 ↔ c = NUL := by
  constructor
  · intro h
    have h0 : c.toNat = 0 := by exact_mod_cast h
    have : c = Char.ofNat c.toNat := (Char.ofNat_toNat c).symm
    rw [h0] at this
    exact this
  · intro h
    rw [h]
    rfl

theorem toNat_sub_ne_zero (x y : Char) (h : x ≠ y) : (x.toNat : Int) - (y.toNat : Int) ≠ 0 := by
  intro h0
  apply h
  have h1 : x.toNat = y.toNat := by omega
  have hx : x = Char.ofNat x.toNat := (Char.ofNat_toNat x).symm
  have hy : y = Char.ofNat y.toNat := (Char.ofNat_toNat y).symm
  rw [hx, hy, h1]

/-- The value of `strcmp` is `0` exactly when the two C strings are equal. -/
theorem strcmp_eq_zero_iff : ∀ (a b : List Char), strcmp a b = 0 ↔ cstr a = cstr b
  | [], [] => by simp [strcmp]
  | [], y :: ys => by
    by_cases hy : y = NUL
    · simp [strcmp, cstr, hy, (toNat_eq_zero_iff NUL).mpr rfl]
    · have : (y.toNat : Int) ≠ 0 := fun h => hy ((toNat_eq_zero_iff y).mp h)
      simp [strcmp, cstr, hy]
      omega
  | x :: xs, [] => by
    by_cases hx : x = NUL
    · simp [strcmp, cstr, hx, (toNat_eq_zero_iff NUL).mpr rfl]
    · have : (x.toNat : Int) ≠ 0 := fun h => hx ((toNat_eq_zero_iff x).mp h)
      simp [strcmp, cstr, hx]
      omega
  | x :: xs, y :: ys => by
    by_cases hxy : x = y
    · subst hxy
      by_cases hx : x = NUL
      · simp [strcmp, cstr, hx]
      · simp [strcmp, cstr, hx, strcmp_eq_zero_iff xs ys]
    · have hd := toNat_sub_ne_zero x y hxy
      by_cases hx : x = NUL <;> by_cases hy : y = NUL
      · exact absurd (hx.trans hy.symm) hxy
      · simp [strcmp, cstr, hxy, hx, hy, hd]
        rw [← hx]; exact ⟨hxy, hd⟩
      · simp [strcmp, cstr, hxy, hx, hy, hd]
        rw [← hy]; exact hd
      · simp [strcmp, cstr, hxy, hx, hy, hd]

/-- The C string that `STRCPY` leaves in a destination of `n + 1` bytes: the
first `n` characters of the source string. -/
theorem cstr_STRCPY : ∀ (n : Nat) (s : List Char),
    cstr (STRCPY (n + 1) s) = (cstr s).take n
  | 0, s => by
    cases s with
    | nil => simp [STRCPY, strncpy, cstr]
    | cons c cs => by_cases hc : c = NUL <;> simp [STRCPY, strncpy, cstr, hc]
  | n + 1, [] => by simp [STRCPY, strncpy, cstr]
  | n + 1, c :: cs => by
    have ih := cstr_STRCPY n cs
    by_cases hc : c = NUL
    · simp [STRCPY, strncpy, cstr, hc]
    · simp [STRCPY, strncpy, cstr, hc] at ih ⊢
      exact ih

theorem chain_append (nodes extra : List struct_cest_node) :
    ∀ (cs : List Nat) (p : Nat), chain nodes p cs → chain (nodes ++ extra) p cs
  | [], _, h => h
  | c :: cs, p, h => by
    obtain ⟨hp, n, hn, hc, hr⟩ := h
    obtain ⟨hlt, _⟩ := List.getElem?_eq_some_iff.mp hn
    exact ⟨hp, n, by rw [List.getElem?_append_left hlt]; exact hn, hc,
      chain_append nodes extra cs n.next hr⟩

/-- The `while` loop of `Cest__enroll` on a chain that is not empty: it ends at
the last node, and once the `next` of that node is set to `t` the chain goes on
with whatever chain starts at `t`. -/
theorem enroll_last_chain (m1 : Memory) (nodes extra : List struct_cest_node)
    (hm1 : m1.nodes = nodes ++ extra) :
    ∀ (cs : List Nat) (p fuel : Nat), cs ≠ [] → chain nodes p cs → cs.length ≤ fuel →
      ∃ last nd, Cest__enroll_last m1 fuel p = .ok last ∧ last ≠ 0 ∧
        nodes[last - 1]? = some nd ∧ nd.next = 0 ∧
        ∀ (t : Nat) (tail : List Nat),
          chain ((nodes ++ extra).set (last - 1) { nd with next := t }) t tail →
          chain ((nodes ++ extra).set (last - 1) { nd with next := t }) p (cs ++ tail)
  | [], _, _, hne, _, _ => absurd rfl hne
  | c :: cs, p, 0, _, _, hf => by simp at hf
  | c :: cs, p, fuel + 1, _, hc, hf => by
    obtain ⟨hp, n, hn, hcest, hrest⟩ := hc
    obtain ⟨hlt, _⟩ := List.getElem?_eq_some_iff.mp hn
    have hnode : m1.node_at p = .ok n := by
      apply node_at_of_getElem m1 p n hp
      rw [hm1, List.getElem?_append_left hlt]; exact hn
    cases cs with
    | nil =>
      have hnext : n.next = 0 := hrest
      refine ⟨p, n, by simp [Cest__enroll_last, hnode, hnext], hp, hn, hnext, ?_⟩
      intro t tail ht
      refine ⟨hp, { n with next := t }, ?_, hcest, ht⟩
      rw [List.getElem?_set_self]
      simp; omega
    | cons c2 cs2 =>
      have hnext : n.next ≠ 0 := hrest.1
      obtain ⟨last, nd, hlast, hl0, hnd, hndnext, hfin⟩ :=
        enroll_last_chain m1 nodes extra hm1 (c2 :: cs2) n.next fuel (by simp) hrest
          (by simpa using hf)
      refine ⟨last, nd, by simp [Cest__enroll_last, hnode, hnext, hlast], hl0, hnd, hndnext, ?_⟩
      intro t tail ht
      have hne : last - 1 ≠ p - 1 := by
        intro heq
        rw [heq, hn] at hnd
        cases hnd
        exact hnext hndnext
      refine ⟨hp, n, ?_, hcest, hfin t tail ht⟩
      rw [List.getElem?_set_ne hne, List.getElem?_append_left hlt]
      exact hn

/-- What `Cest__enroll` does on a chain: it returns, the chain is the old one
followed by the new pointer, one node has been allocated and no `struct cest`
object is touched. -/
theorem enroll_chain (m : Memory) (a_cest : Nat) (cs : List Nat)
    (h : chain m.nodes m.first cs) :
    ∃ m2, Cest__enroll m a_cest = .ok m2 ∧ chain m2.nodes m2.first (cs ++ [a_cest]) ∧
      m2.cests = m.cests ∧ m2.nodes.length = m.nodes.length + 1 := by
  cases cs with
  | nil =>
    have hfirst : m.first = 0 := h
    refine ⟨Memory.mk m.cests (m.nodes ++ [⟨a_cest, 0⟩]) (m.nodes.length + 1), ?_, ?_, rfl,
      by simp⟩
    · simp [Cest__enroll, hfirst]
    · exact ⟨by simp, ⟨a_cest, 0⟩, by simp, rfl, rfl⟩
  | cons c cs =>
    have hfirst : m.first ≠ 0 := h.1
    obtain ⟨last, nd, hlast, hl0, hnd, hndnext, hfin⟩ :=
      enroll_last_chain (Memory.mk m.cests (m.nodes ++ [⟨a_cest, 0⟩]) m.first) m.nodes
        [⟨a_cest, 0⟩] rfl (c :: cs) m.first (m.nodes.length + 1 + 1) (by simp) h (by
          have := chain_length_le m.nodes _ _ h
          omega)
    obtain ⟨hlt, _⟩ := List.getElem?_eq_some_iff.mp hnd
    have hnode : Memory.node_at (Memory.mk m.cests (m.nodes ++ [⟨a_cest, 0⟩]) m.first) last
        = .ok nd := by
      apply node_at_of_getElem _ last nd hl0
      show (m.nodes ++ [⟨a_cest, 0⟩])[last - 1]? = some nd
      rw [List.getElem?_append_left hlt]; exact hnd
    refine ⟨Memory.mk m.cests ((m.nodes ++ [struct_cest_node.mk a_cest 0]).set (last - 1)
        (struct_cest_node.mk nd.cest (m.nodes.length + 1))) m.first, ?_, ?_, rfl, by simp⟩
    · simp only [Cest__enroll, Memory.fuel, List.length_append, List.length_singleton]
      rw [if_neg hfirst, hlast, Result.bind_ok, hnode, Result.bind_ok]
    · apply hfin (m.nodes.length + 1) [a_cest]
      refine ⟨by simp, ⟨a_cest, 0⟩, ?_, rfl, rfl⟩
      rw [List.getElem?_set_ne (by omega)]
      simp

theorem cest_at_of_cests_eq (m m2 : Memory) (h : m2.cests = m.cests) (p : Nat) :
    m2.cest_at p = m.cest_at p := by
  simp [Memory.cest_at, h]

/-- The records of a registry and its pointers determine each other. -/
theorem registry_unique (m : Memory) :
    ∀ (l l2 : List (Nat × struct_cest)), Registry m l → Registry m l2 → l = l2 := by
  intro l l2 h h2
  have hfst := chain_unique m.nodes _ _ m.first h.1 h2.1
  have hr := h.2
  have hr2 := h2.2
  clear h h2
  induction l generalizing l2 with
  | nil => cases l2 with
    | nil => rfl
    | cons e l2 => simp at hfst
  | cons e l ih =>
    cases l2 with
    | nil => simp at hfst
    | cons e2 l2 =>
      simp only [List.map_cons, List.cons.injEq] at hfst
      have h1 := hr e (List.mem_cons_self _ _)
      have h2 := hr2 e2 (List.mem_cons_self _ _)
      rw [← hfst.1, h1] at h2
      have hsnd : e.2 = e2.2 := by injection h2
      have he : e = e2 := Prod.ext hfst.1 hsnd
      rw [he, ih l2 hfst.2 (fun x hx => hr x (List.mem_cons_of_mem _ hx))
        (fun x hx => hr2 x (List.mem_cons_of_mem _ hx))]

/-- Enrolling an allocated record appends it to the registry. -/
theorem enroll_registry (m : Memory) (l : List (Nat × struct_cest)) (c : Nat) (r : struct_cest)
    (h : Registry m l) (hc : m.cest_at c = .ok r) :
    ∃ m2, Cest__enroll m c = .ok m2 ∧ Registry m2 (l ++ [(c, r)]) ∧ m2.cests = m.cests := by
  obtain ⟨m2, henroll, hchain, hcests, _⟩ := enroll_chain m c (l.map Prod.fst) h.1
  refine ⟨m2, henroll, ⟨by simpa using hchain, ?_⟩, hcests⟩
  intro e he
  rw [cest_at_of_cests_eq m m2 hcests]
  rcases List.mem_append.mp he with he | he
  · exact h.2 e he
  · rw [List.mem_singleton.mp he]; exact hc

/-- Successive enrollments of allocated records append them in order. -/
theorem enrollAll_registry :
    ∀ (es : List (Nat × struct_cest)) (m : Memory) (l : List (Nat × struct_cest)),
      Registry m l → (∀ e ∈ es, m.cest_at e.1 = .ok e.2) →
      ∃ m2, enrollAll m (es.map Prod.fst) = .ok m2 ∧ Registry m2 (l ++ es) ∧
        m2.cests = m.cests
  | [], m, l, h, _ => ⟨m, rfl, by simpa using h, rfl⟩
  | e :: es, m, l, h, hr => by
    obtain ⟨m1, h1, hreg1, hc1⟩ := enroll_registry m l e.1 e.2 h (hr e (List.mem_cons_self _ _))
    obtain ⟨m2, h2, hreg2, hc2⟩ := enrollAll_registry es m1 (l ++ [e]) hreg1 (by
      intro x hx
      rw [cest_at_of_cests_eq m m1 hc1]
      exact hr x (List.mem_cons_of_mem _ hx))
    refine ⟨m2, ?_, by simpa using hreg2, hc2.trans hc1⟩
    simp [enrollAll, h1, h2]

/-! ## The claims -/

theorem scenarioC_registry : Registry scenarioC scenarioC_records := by
  refine ⟨⟨by decide, ⟨1, 2⟩, rfl, rfl, by decide, ⟨2, 3⟩, rfl, rfl, by decide, ⟨3, 0⟩, rfl, rfl,
    rfl⟩, ?_⟩
  intro e he
  simp only [scenarioC_records, List.mem_cons, List.mem_singleton, List.not_mem_nil,
    or_false] at he
  rcases he with rfl | rfl | rfl <;> rfl

theorem int_wrap_natCast (n : Nat) (h : n < 2147483648) : int_wrap (n : Int) = n := by
  apply int_wrap_of_range <;> omega

theorem countP_failure_eq_zero (l : List (Nat × struct_cest)) :
    l.countP (fun e => decide (outcome e = .failure)) = 0 ↔ ∀ e ∈ l, outcome e ≠ .failure := by
  simp [List.countP_eq_zero]

/-- C1, counterexample.  Scenario C is a registry of three tests whose outcomes
are success, failure and pending: two of them did not report success, and
`Cest__run_all` returns `1`, not `2`. -/
theorem C1_counterexample :
    Registry scenarioC scenarioC_records ∧
    scenarioC_records.map outcome = [.success, .failure, .pending] ∧
    scenarioC_records.countP (fun e => decide (outcome e ≠ .success)) = 2 ∧
    ∃ out, Cest__run_all scenarioC = .ok (out, 1) :=
  ⟨scenarioC_registry, rfl, rfl, _, run_all_registry scenarioC scenarioC_records scenarioC_registry⟩

/-- C1, as amended.  For every registry of fewer than 2^31 enrolled tests,
`Cest__run_all` returns the number of enrolled tests whose outcome is failure:
a pending test does not contribute.  `main` returns that same value.  The
value is `0` exactly when no test reported failure, and it is `1` for the
outcomes success, failure, pending. -/
theorem C1_run_all_returns_failures (m : Memory) (l : List (Nat × struct_cest))
    (h : Registry m l) (hlen : l.length < 2 ^ 31) :
    ∃ out ret, Cest__run_all m = .ok (out, ret) ∧ main m = .ok (out, ret) ∧
      ret = (l.countP (fun e => decide (outcome e = .failure)) : Nat) ∧
      (ret = 0 ↔ ∀ e ∈ l, outcome e ≠ .failure) ∧
      (l.map outcome = [.success, .failure, .pending] → ret = 1) := by
  have hle : l.countP (fun e => decide (outcome e = .failure)) ≤ l.length := List.countP_le_length _
  refine ⟨_, _, run_all_registry m l h, run_all_registry m l h,
    int_wrap_natCast _ (by norm_num at hlen; omega), ?_, ?_⟩
  · rw [int_wrap_natCast _ (by norm_num at hlen; omega), ← countP_failure_eq_zero]
    exact Int.natCast_eq_zero
  · intro ho
    have hc : l.countP (fun e => decide (outcome e = .failure))
        = (l.map outcome).countP (fun o => decide (o = .failure)) := by
      rw [List.countP_map]; rfl
    rw [int_wrap_natCast _ (by norm_num at hlen; omega), hc, ho]
    rfl

/-- C1, witness: the amended statement at scenario C. -/
theorem C1_run_all_returns_failures_witness :
    Registry scenarioC scenarioC_records ∧ scenarioC_records.length < 2 ^ 31 ∧
    ∃ out ret, Cest__run_all scenarioC = .ok (out, ret) ∧ main scenarioC = .ok (out, ret) ∧
      ret = 1 := by
  obtain ⟨out, ret, h1, h2, _, _, h4⟩ :=
    C1_run_all_returns_failures scenarioC scenarioC_records scenarioC_registry (by decide)
  exact ⟨scenarioC_registry, by decide, out, ret, h1, h2, h4 rfl⟩

theorem countP_map_outcome (l : List (Nat × struct_cest)) (p : cest_state → Bool) :
    l.countP (fun e => p (outcome e)) = (l.map outcome).countP p := by
  rw [List.countP_map]; rfl

/-- C2, counterexample.  In scenario C exactly one test reports success, and
the summary call of `Cest__run_all` prints `2 successes (of 3)`: the pending
test is counted as a success. -/
theorem C2_counterexample :
    Registry scenarioC scenarioC_records ∧
    scenarioC_records.map outcome = [.success, .failure, .pending] ∧
    scenarioC_records.countP (fun e => decide (outcome e = .success)) = 1 ∧
    ∃ lines ret, Cest__run_all scenarioC
        = .ok (lines ++ [Printf.summary ANSIEscapes.failure 2 ANSIEscapes.reset 3], ret) ∧
      (Printf.summary ANSIEscapes.failure 2 ANSIEscapes.reset 3).render
        = "\x1b[31m2 successes\x1b[0m (of 3)\n" :=
  ⟨scenarioC_registry, rfl, rfl, _, _,
    run_all_registry scenarioC scenarioC_records scenarioC_registry, by decide⟩

/-- C2, as amended.  For every registry of fewer than 2^31 enrolled tests, the
successes number that `Cest__run_all` prints in its summary is the number of
enrolled tests whose outcome is not failure, so a pending test is counted as a
success; for the outcomes success, failure, pending the summary reads
`2 successes (of 3)`. -/
theorem C2_summary_counts_non_failures (m : Memory) (l : List (Nat × struct_cest))
    (h : Registry m l) (hlen : l.length < 2 ^ 31) :
    ∃ lines color reset total ret,
      Cest__run_all m = .ok (lines ++ [Printf.summary color
        (l.countP (fun e => decide (outcome e ≠ .failure)) : Nat) reset total], ret) ∧
      (l.map outcome = [.success, .failure, .pending] →
        (Printf.summary color (l.countP (fun e => decide (outcome e ≠ .failure)) : Nat)
          reset total).render = "\x1b[31m2 successes\x1b[0m (of 3)\n") := by
  have hle : l.countP (fun e => decide (outcome e ≠ .failure)) ≤ l.length :=
    List.countP_le_length _
  have hs := int_wrap_natCast (l.countP (fun e => decide (outcome e ≠ .failure)))
    (by norm_num at hlen; omega)
  have ht := int_wrap_natCast l.length (by norm_num at hlen; omega)
  have hrun := run_all_registry m l h
  rw [hs, ht] at hrun
  refine ⟨_, _, _, _, _, hrun, ?_⟩
  intro ho
  have hlen3 : l.length = 3 := by
    have := congrArg List.length ho
    simpa using this
  have hc : l.countP (fun e => decide (outcome e ≠ .failure)) = 2 := by
    rw [countP_map_outcome l (fun o => decide (o ≠ .failure)), ho]; rfl
  simp only [Cest__run_all_summary, hc, hlen3]
  rw [if_pos (by decide)]
  decide

/-- C2, witness: the amended statement at scenario C. -/
theorem C2_summary_counts_non_failures_witness :
    Registry scenarioC scenarioC_records ∧ scenarioC_records.length < 2 ^ 31 ∧
    ∃ lines color reset total ret,
      Cest__run_all scenarioC = .ok (lines ++ [Printf.summary color 2 reset total], ret) := by
  obtain ⟨lines, color, reset, total, ret, h1, _⟩ :=
    C2_summary_counts_non_failures scenarioC scenarioC_records scenarioC_registry (by decide)
  exact ⟨scenarioC_registry, by decide, lines, color, reset, total, ret, h1⟩

theorem twoRecords_registry : Registry twoRecords [] :=
  ⟨rfl, fun _ he => absurd he (List.not_mem_nil _)⟩

theorem countP_replicate_pos {α : Type} (p : α → Bool) (a : α) (hp : p a = true) :
    ∀ n : Nat, (List.replicate n a).countP p = n
  | 0 => rfl
  | n + 1 => by
    rw [List.replicate_succ, List.countP_cons_of_pos _ _ hp, countP_replicate_pos p a hp n]

theorem countP_replicate_neg {α : Type} (p : α → Bool) (a : α) (hp : ¬ p a = true) :
    ∀ n : Nat, (List.replicate n a).countP p = 0
  | 0 => rfl
  | n + 1 => by
    rw [List.replicate_succ, List.countP_cons_of_neg _ _ hp, countP_replicate_neg p a hp n]

/-- Enrolling the failing record of `twoRecords` `n` times gives a registry of
`n` failing tests, and `Cest__run_all` returns the wrapped `n` on it. -/
theorem run_all_failing (n : Nat) :
    ∃ m, enrollAll twoRecords (List.replicate n 2) = .ok m ∧
      Registry m (List.replicate n (2, sample "LL" "fails" .failure)) ∧
      (List.replicate n (2, sample "LL" "fails" .failure)).countP
          (fun e => decide (outcome e = .failure)) = n ∧
      ∃ lines color successes reset,
        Cest__run_all m = .ok (lines ++
          [Printf.summary color successes reset (int_wrap n)], int_wrap n) := by
  obtain ⟨m, h1, h2, _⟩ := enrollAll_registry
    (List.replicate n (2, sample "LL" "fails" .failure)) twoRecords [] twoRecords_registry (by
      intro e he
      rw [List.eq_of_mem_replicate he]
      rfl)
  rw [List.map_replicate] at h1
  rw [List.nil_append] at h2
  have hcount := countP_replicate_pos (fun e => decide (outcome e = .failure))
    (2, sample "LL" "fails" .failure) rfl n
  have hrun := run_all_registry m _ h2
  rw [hcount, List.length_replicate] at hrun
  exact ⟨m, h1, h2, hcount, _, _, _, _, hrun⟩

/-- C3, counterexample.  After the failing record of `twoRecords` is enrolled
2^31 times, the registry holds 2^31 failed tests and `Cest__run_all` returns
`-2^31`: the `int` counter has wrapped. -/
theorem C3_counterexample :
    ∃ m, enrollAll twoRecords (List.replicate (2 ^ 31) 2) = .ok m ∧
      Registry m (List.replicate (2 ^ 31) (2, sample "LL" "fails" .failure)) ∧
      (List.replicate (2 ^ 31) (2, sample "LL" "fails" .failure)).countP
          (fun e => decide (outcome e = .failure)) = 2 ^ 31 ∧
      ∃ out, Cest__run_all m = .ok (out, -2147483648) := by
  obtain ⟨m, h1, h2, h3, lines, color, successes, reset, h4⟩ := run_all_failing (2 ^ 31)
  have hw : int_wrap ((2 ^ 31 : Nat) : Int) = -2147483648 := by decide
  rw [hw] at h4
  exact ⟨m, h1, h2, h3, _, h4⟩

/-- C3, as amended.  For every registry of fewer than 2^31 enrolled tests,
`Cest__run_all` returns the number of failed tests: the number of enrolled
tests whose outcome is failure. -/
theorem C3_run_all_returns_failed_tests (m : Memory) (l : List (Nat × struct_cest))
    (h : Registry m l) (hlen : l.length < 2 ^ 31) :
    ∃ out, Cest__run_all m
      = .ok (out, ((l.countP (fun e => decide (outcome e = .failure)) : Nat) : Int)) := by
  have hle : l.countP (fun e => decide (outcome e = .failure)) ≤ l.length := List.countP_le_length _
  have hrun := run_all_registry m l h
  rw [int_wrap_natCast (l.countP (fun e => decide (outcome e = .failure)))
    (by norm_num at hlen; omega)] at hrun
  exact ⟨_, hrun⟩

/-- C3, witness: the amended statement at scenario C, where one test fails. -/
theorem C3_run_all_returns_failed_tests_witness :
    Registry scenarioC scenarioC_records ∧ scenarioC_records.length < 2 ^ 31 ∧
    ∃ out, Cest__run_all scenarioC = .ok (out, ((1 : Nat) : Int)) :=
  ⟨scenarioC_registry, by decide,
    C3_run_all_returns_failed_tests scenarioC scenarioC_records scenarioC_registry (by decide)⟩

/-- C4, counterexample.  After the succeeding record of `twoRecords` and then
2^31 - 1 times its failing record are enrolled, the summary call prints the
total `-2^31` and `1` success, and `Cest__run_all` returns `2^31 - 1`, which is
not the printed total minus the printed successes. -/
theorem C4_counterexample :
    ∃ m, enrollAll twoRecords (1 :: List.replicate 2147483647 2) = .ok m ∧
      Registry m ((1, sample "LL" "passes" .success) ::
        List.replicate 2147483647 (2, sample "LL" "fails" .failure)) ∧
      ∃ lines color reset, Cest__run_all m
          = .ok (lines ++ [Printf.summary color 1 reset (-2147483648)], 2147483647) ∧
        (2147483647 : Int) ≠ -2147483648 - 1 := by
  have key : ∀ n : Nat, ∃ m, enrollAll twoRecords (1 :: List.replicate n 2) = .ok m ∧
      Registry m ((1, sample "LL" "passes" .success) ::
        List.replicate n (2, sample "LL" "fails" .failure)) ∧
      ∃ lines color reset, Cest__run_all m
        = .ok (lines ++ [Printf.summary color (int_wrap ((1 : Nat) + 0)) reset
            (int_wrap ((n + 1 : Nat) : Int))], int_wrap (n : Nat)) := by
    intro n
    obtain ⟨m, h1, h2, _⟩ := enrollAll_registry
      ((1, sample "LL" "passes" .success) :: List.replicate n (2, sample "LL" "fails" .failure))
      twoRecords [] twoRecords_registry (by
        intro e he
        rcases List.mem_cons.mp he with he | he
        · rw [he]; rfl
        · rw [List.eq_of_mem_replicate he]; rfl)
    rw [List.map_cons, List.map_replicate] at h1
    rw [List.nil_append] at h2
    have hc1 : List.countP (fun e => decide (outcome e ≠ .failure))
        ((1, sample "LL" "passes" .success) :: List.replicate n (2, sample "LL" "fails" .failure))
        = 1 + 0 := by
      rw [List.countP_cons, countP_replicate_neg _ _ (by decide) n]; rfl
    have hc2 : List.countP (fun e => decide (outcome e = .failure))
        ((1, sample "LL" "passes" .success) :: List.replicate n (2, sample "LL" "fails" .failure))
        = n := by
      rw [List.countP_cons, countP_replicate_pos _ _ (by rfl) n]; rfl
    have hrun := run_all_registry m _ h2
    rw [hc1, hc2, List.length_cons, List.length_replicate] at hrun
    exact ⟨m, h1, h2, _, _, _, by rw [hrun]; rfl⟩
  obtain ⟨m, h1, hreg, lines, color, reset, h2⟩ := key 2147483647
  have hw1 : int_wrap ((1 : Nat) + 0) = 1 := by decide
  have hw2 : int_wrap ((2147483647 + 1 : Nat) : Int) = -2147483648 := by decide
  have hw3 : int_wrap ((2147483647 : Nat) : Int) = 2147483647 := by decide
  rw [hw1, hw2, hw3] at h2
  exact ⟨m, h1, hreg, lines, color, reset, h2, by decide⟩

/-- C4, as amended.  For every registry, the value `Cest__run_all` returns is
`0` whenever every enrolled test's outcome is success (the empty registry
included), and for a registry of fewer than 2^31 enrolled tests it equals the
total printed in the summary minus the successes count printed there. -/
theorem C4_exit_code_identity (m : Memory) (l : List (Nat × struct_cest))
    (h : Registry m l) :
    ∃ lines color successes reset total ret,
      Cest__run_all m = .ok (lines ++ [Printf.summary color successes reset total], ret) ∧
      (l.length < 2 ^ 31 → ret = total - successes) ∧
      ((∀ e ∈ l, outcome e = .success) → ret = 0) := by
  have hrun := run_all_registry m l h
  simp only [Cest__run_all_summary] at hrun
  refine ⟨_, _, _, _, _, _, hrun, ?_, ?_⟩
  · intro hlen
    have hsum := countP_failure_add l
    norm_num at hlen
    rw [int_wrap_natCast _ (by omega), int_wrap_natCast _ (by omega),
      int_wrap_natCast _ (by omega)]
    omega
  · intro hall
    have h0 : l.countP (fun e => decide (outcome e = .failure)) = 0 := by
      rw [countP_failure_eq_zero]
      intro e he hf
      rw [hall e he] at hf
      cases hf
    rw [h0]
    rfl

/-- C4, witness: the statement at scenario C. -/
theorem C4_exit_code_identity_witness :
    Registry scenarioC scenarioC_records ∧ scenarioC_records.length < 2 ^ 31 ∧
    ∃ lines color successes reset total ret,
      Cest__run_all scenarioC
        = .ok (lines ++ [Printf.summary color successes reset total], ret) ∧
      ret = total - successes := by
  obtain ⟨lines, color, successes, reset, total, ret, h1, h2, _⟩ :=
    C4_exit_code_identity scenarioC scenarioC_records scenarioC_registry
  exact ⟨scenarioC_registry, by decide, lines, color, successes, reset, total, ret, h1,
    h2 (by decide)⟩

/-- C5, counterexample.  After 2^31 enrollments that start from the empty
registry of `twoRecords`, the total printed in the summary is `-2^31`, not the
number of enrollments. -/
theorem C5_counterexample :
    twoRecords.first = 0 ∧
    ∃ m, enrollAll twoRecords (List.replicate (2 ^ 31) 2) = .ok m ∧
      ∃ lines color successes reset ret, Cest__run_all m
          = .ok (lines ++ [Printf.summary color successes reset (-2147483648)], ret) ∧
        (-2147483648 : Int) ≠ ((2 ^ 31 : Nat) : Int) := by
  obtain ⟨m, h1, _, _, lines, color, successes, reset, h4⟩ := run_all_failing (2 ^ 31)
  have hw : int_wrap ((2 ^ 31 : Nat) : Int) = -2147483648 := by decide
  rw [hw] at h4
  exact ⟨rfl, m, h1, lines, color, successes, reset, _, h4, by decide⟩

/-- C5, as amended.  For every sequence of N enrollments of allocated records
that starts from the empty registry, `Cest__run_all` makes exactly N status
calls before the summary call, the i-th of them is the one for the i-th enrolled
record (its stored namespace and name, coloured by that record's own outcome),
and the total printed in the summary is N whenever N is less than 2^31. -/
theorem C5_order_preservation (m0 : Memory) (es : List (Nat × struct_cest))
    (hempty : m0.first = 0) (hrec : ∀ e ∈ es, m0.cest_at e.1 = .ok e.2) :
    ∃ m, enrollAll m0 (es.map Prod.fst) = .ok m ∧
      ∃ lines color successes reset total ret,
        Cest__run_all m = .ok (lines ++ [Printf.summary color successes reset total], ret) ∧
        lines = es.map spec_status ∧ lines.length = es.length ∧
        (∀ (i : Nat) (hi : i < es.length), lines[i]? = some (spec_status es[i])) ∧
        (es.length < 2 ^ 31 → total = es.length) := by
  obtain ⟨m, h1, h2, _⟩ := enrollAll_registry es m0 []
    ⟨hempty, fun _ he => absurd he (List.not_mem_nil _)⟩ hrec
  rw [List.nil_append] at h2
  have hrun := run_all_registry m es h2
  simp only [Cest__run_all_summary] at hrun
  refine ⟨m, h1, _, _, _, _, _, _, hrun, rfl, by simp, ?_, ?_⟩
  · intro i hi
    simp [hi]
  · intro hlen
    norm_num at hlen
    exact int_wrap_natCast _ (by omega)

/-- C5, witness: three enrollments into the empty registry of `twoRecords`. -/
theorem C5_order_preservation_witness :
    twoRecords.first = 0 ∧
    ∃ m, enrollAll twoRecords [2, 1, 2] = .ok m ∧
      ∃ lines color successes reset total ret,
        Cest__run_all m = .ok (lines ++ [Printf.summary color successes reset total], ret) ∧
        lines = [Printf.status "LL" "\x1b[31m" "fails" "\x1b[0m",
          Printf.status "LL" "\x1b[32m" "passes" "\x1b[0m",
          Printf.status "LL" "\x1b[31m" "fails" "\x1b[0m"] ∧
        total = 3 := by
  obtain ⟨m, h1, lines, color, successes, reset, total, ret, h2, h3, _, _, h5⟩ :=
    C5_order_preservation twoRecords
      [(2, sample "LL" "fails" .failure), (1, sample "LL" "passes" .success),
        (2, sample "LL" "fails" .failure)] rfl (by
        intro e he
        simp only [List.mem_cons, List.mem_singleton, List.not_mem_nil, or_false] at he
        rcases he with rfl | rfl | rfl <;> rfl)
  exact ⟨rfl, m, h1, lines, color, successes, reset, total, ret, h2, h3.trans (by decide),
    h5 (by decide)⟩

theorem matches_iff_same (namespace_ name : List Char) (e : Nat × struct_cest) :
    matches_pair namespace_ name e ↔ same_pair namespace_ name e := by
  unfold matches_pair same_pair
  rw [strcmp_eq_zero_iff, strcmp_eq_zero_iff]

/-- On a registry that holds a record with the looked-up pair, `Cest__of`
returns the pointer of the first such record. -/
theorem of_registry_first (m : Memory) (l : List (Nat × struct_cest))
    (namespace_ name : List Char) (h : Registry m l)
    (hex : ∃ e ∈ l, same_pair namespace_ name e) :
    ∃ (i : Nat) (hi : i < l.length), Cest__of m namespace_ name = .ok (l[i]).1 ∧
      same_pair namespace_ name l[i] ∧
      ∀ (j : Nat) (hj : j < l.length), j < i → ¬ same_pair namespace_ name l[j] := by
  obtain ⟨e0, he0, hs0⟩ := hex
  have hne : l ≠ [] := List.ne_nil_of_mem he0
  have hof := of_registry m l namespace_ name h hne
  cases hfind : l.find? (fun e => decide (matches_pair namespace_ name e)) with
  | none =>
    rw [List.find?_eq_none] at hfind
    exact absurd (by simpa using (matches_iff_same namespace_ name e0).mpr hs0) (hfind e0 he0)
  | some b =>
    rw [hfind] at hof
    obtain ⟨hb, as, bs, hl, has⟩ := List.find?_eq_some.mp hfind
    have hi : as.length < l.length := by rw [hl]; simp
    have hget : l[as.length] = b := List.getElem_of_append hl rfl
    refine ⟨as.length, hi, by rw [hget]; exact hof, ?_, ?_⟩
    · rw [hget]
      exact (matches_iff_same namespace_ name b).mp (by simpa using hb)
    · intro j hj hlt hsame
      have hj2 : l[j] = as[j] := by
        subst hl
        exact List.getElem_append_left hlt
      have := has as[j] (List.getElem_mem _)
      rw [hj2] at hsame
      have hm := (matches_iff_same namespace_ name as[j]).mpr hsame
      simp [hm] at this

/-- C6.  For every registry and every allocated record, `Cest__enroll` returns
and the registry it leaves is the previous sequence, unchanged and in the same
order, followed by the new record as its last element; it is the only sequence
the new memory holds, it is one longer, and no `struct cest` object is
changed. -/
theorem C6_enroll_appends (m : Memory) (l : List (Nat × struct_cest)) (c : Nat)
    (r : struct_cest) (h : Registry m l) (hc : m.cest_at c = .ok r) :
    ∃ m2, Cest__enroll m c = .ok m2 ∧ Registry m2 (l ++ [(c, r)]) ∧
      (∀ l2, Registry m2 l2 → l2 = l ++ [(c, r)]) ∧
      (∀ l2, Registry m2 l2 → l2.length = l.length + 1 ∧ l2.take l.length = l ∧
        l2.getLast? = some (c, r)) ∧
      m2.cests = m.cests := by
  obtain ⟨m2, h1, h2, h3⟩ := enroll_registry m l c r h hc
  refine ⟨m2, h1, h2, fun l2 hl2 => registry_unique m2 _ _ hl2 h2, ?_, h3⟩
  intro l2 hl2
  rw [registry_unique m2 _ _ hl2 h2]
  simp

/-- C6, witness: the second record of scenario C is enrolled once more. -/
theorem C6_enroll_appends_witness :
    Registry scenarioC scenarioC_records ∧
    scenarioC.cest_at 2 = .ok (sample "LL" "append" .failure) ∧
    ∃ m2, Cest__enroll scenarioC 2 = .ok m2 ∧
      Registry m2 (scenarioC_records ++ [(2, sample "LL" "append" .failure)]) := by
  obtain ⟨m2, h1, h2, _⟩ := C6_enroll_appends scenarioC scenarioC_records 2
    (sample "LL" "append" .failure) scenarioC_registry rfl
  exact ⟨scenarioC_registry, rfl, m2, h1, h2⟩

/-- C7.  For every registry and every pair such that an enrolled record has
stored namespace and stored name equal to the pair, `Cest__of` returns the
earliest-enrolled such record: the record returned carries the pair and no
record enrolled before it does. -/
theorem C7_lookup_returns_first_match (m : Memory) (l : List (Nat × struct_cest))
    (namespace_ name : List Char) (h : Registry m l)
    (hex : ∃ e ∈ l, same_pair namespace_ name e) :
    ∃ (i : Nat) (hi : i < l.length), Cest__of m namespace_ name = .ok (l[i]).1 ∧
      same_pair namespace_ name l[i] ∧
      ∀ (j : Nat) (hj : j < l.length), j < i → ¬ same_pair namespace_ name l[j] :=
  of_registry_first m l namespace_ name h hex

theorem scenarioDup_registry : Registry scenarioDup scenarioDup_records := by
  refine ⟨⟨by decide, ⟨1, 2⟩, rfl, rfl, by decide, ⟨2, 3⟩, rfl, rfl, by decide, ⟨3, 0⟩, rfl, rfl,
    rfl⟩, ?_⟩
  intro e he
  simp only [scenarioDup_records, List.mem_cons, List.mem_singleton, List.not_mem_nil,
    or_false] at he
  rcases he with rfl | rfl | rfl <;> rfl

/-- C7, witness: a registry in which the second and the third record carry the
looked-up pair. -/
theorem C7_lookup_returns_first_match_witness :
    Registry scenarioDup scenarioDup_records ∧
    (∃ e ∈ scenarioDup_records, same_pair "LL".toList "append".toList e) ∧
    ∃ (i : Nat) (hi : i < scenarioDup_records.length),
      Cest__of scenarioDup "LL".toList "append".toList = .ok (scenarioDup_records[i]).1 ∧
      same_pair "LL".toList "append".toList scenarioDup_records[i] ∧
      ∀ (j : Nat) (hj : j < scenarioDup_records.length), j < i →
        ¬ same_pair "LL".toList "append".toList scenarioDup_records[j] :=
  ⟨scenarioDup_registry, ⟨(2, sample "LL" "append" .failure),
      List.mem_cons_of_mem _ (List.mem_cons_self _ _), by decide⟩,
    C7_lookup_returns_first_match scenarioDup scenarioDup_records "LL".toList "append".toList
      scenarioDup_registry ⟨(2, sample "LL" "append" .failure),
      List.mem_cons_of_mem _ (List.mem_cons_self _ _), by decide⟩⟩

/-- C8.  For every registry that is not empty and every pair, `Cest__of` takes
the branch `exit(1337)` if and only if no enrolled record's stored namespace
and name equal the pair; in that case nothing is returned to the caller, so no
null pointer either. -/
theorem C8_lookup_fatal_iff_no_match (m : Memory) (l : List (Nat × struct_cest))
    (namespace_ name : List Char) (h : Registry m l) (hne : l ≠ []) :
    (Cest__of m namespace_ name = .exited 1337 ↔ ∀ e ∈ l, ¬ same_pair namespace_ name e) ∧
    ((∀ e ∈ l, ¬ same_pair namespace_ name e) → ∀ c, Cest__of m namespace_ name ≠ .ok c) := by
  have hof := of_registry m l namespace_ name h hne
  have hiff : Cest__of m namespace_ name = .exited 1337 ↔
      ∀ e ∈ l, ¬ same_pair namespace_ name e := by
    cases hfind : l.find? (fun e => decide (matches_pair namespace_ name e)) with
    | none =>
      rw [hfind] at hof
      rw [List.find?_eq_none] at hfind
      refine ⟨fun _ e he hs => ?_, fun _ => hof⟩
      exact hfind e he (by simpa using (matches_iff_same namespace_ name e).mpr hs)
    | some b =>
      rw [hfind] at hof
      refine ⟨fun hex => ?_, fun hno => ?_⟩
      · rw [hof] at hex; cases hex
      · have hb := List.find?_some hfind
        exact absurd ((matches_iff_same namespace_ name b).mp (by simpa using hb))
          (hno b (List.mem_of_find?_eq_some hfind))
  refine ⟨hiff, fun hno c hc => ?_⟩
  rw [hiff.mpr hno] at hc
  cases hc

/-- C8, witness: a pair that no record of scenario C carries. -/
theorem C8_lookup_fatal_iff_no_match_witness :
    Registry scenarioC scenarioC_records ∧ scenarioC_records ≠ [] ∧
    (∀ e ∈ scenarioC_records, ¬ same_pair "LL".toList "missing".toList e) ∧
    Cest__of scenarioC "LL".toList "missing".toList = .exited 1337 :=
  ⟨scenarioC_registry, List.cons_ne_nil _ _, by decide,
    (C8_lookup_fatal_iff_no_match scenarioC scenarioC_records "LL".toList "missing".toList
      scenarioC_registry (List.cons_ne_nil _ _)).1.mpr (by decide)⟩

/-- C9, the code at the failing input.  In scenario C no record is enrolled
under the pair `("LL", "missing")`; `Cest__of` does not return `NULL` for it
but calls `exit(1337)`, and on the empty registry it dereferences `NULL`. -/
theorem C9_lookup_of_missing_pair :
    Registry scenarioC scenarioC_records ∧
    (∀ e ∈ scenarioC_records, ¬ same_pair "LL".toList "missing".toList e) ∧
    Cest__of scenarioC "LL".toList "missing".toList = .exited 1337 ∧
    Cest__of scenarioC "LL".toList "missing".toList ≠ .ok 0 ∧
    Cest__of Cest_init "LL".toList "missing".toList = .nullAccess :=
  ⟨scenarioC_registry, by decide, by decide, by decide, by decide⟩

theorem create_registry (m : Memory) (l : List (Nat × struct_cest)) (namespace_ name : List Char)
    (function : Unit → cest_state) (h : Registry m l) :
    Registry (Cest__create m namespace_ name function).2 l ∧
    (Cest__create m namespace_ name function).2.cest_at
        (Cest__create m namespace_ name function).1
      = .ok (struct_cest.mk function (STRCPY 32 namespace_) (STRCPY 216 name)) := by
  refine ⟨⟨h.1, ?_⟩, ?_⟩
  · intro e he
    have hold := h.2 e he
    unfold Memory.cest_at at hold ⊢
    by_cases hp : e.1 = 0
    · simp [hp] at hold
    · simp only [hp, if_false] at hold ⊢
      cases hget : m.cests[e.1 - 1]? with
      | none => simp [hget] at hold
      | some c =>
        obtain ⟨hlt, _⟩ := List.getElem?_eq_some_iff.mp hget
        simp only [Cest__create]
        rw [List.getElem?_append_left hlt, hget]
        simpa [hget] using hold
  · simp [Cest__create, Memory.cest_at]

theorem strncpy_length : ∀ (n : Nat) (s : List Char), (strncpy n s).length = n
  | 0, _ => rfl
  | n + 1, [] => by simp [strncpy, strncpy_length n []]
  | n + 1, c :: cs => by
    by_cases hc : c = NUL <;> simp [strncpy, hc, strncpy_length n]

theorem STRCPY_length (n : Nat) (s : List Char) : (STRCPY n s).length = n := by
  simp [STRCPY, strncpy_length]

theorem STRCPY_last (n : Nat) (s : List Char) : (STRCPY (n + 1) s)[n]? = some NUL := by
  unfold STRCPY
  rw [Nat.add_sub_cancel, List.getElem?_set_self]
  rw [strncpy_length]; omega

/-- C11.  For every namespace string, name string and test function,
`Cest__create` yields the address of a new record whose function is the one
given, whose `namespace` array has 32 bytes and holds, NUL-terminated, exactly
the first min(length, 31) characters of the namespace string, and whose `name`
array has 216 bytes and holds, NUL-terminated, exactly the first
min(length, 215) characters of the name string: the string itself when it
fits. -/
theorem C11_create_truncates (m : Memory) (namespace_ name : List Char)
    (function : Unit → cest_state) :
    ∃ r, (Cest__create m namespace_ name function).2.cest_at
          (Cest__create m namespace_ name function).1 = .ok r ∧
      r.function = function ∧
      r.namespace_.length = 32 ∧ r.namespace_[31]? = some NUL ∧
      cstr r.namespace_ = (cstr namespace_).take 31 ∧
      (cstr r.namespace_).length = min (cstr namespace_).length 31 ∧
      r.name.length = 216 ∧ r.name[215]? = some NUL ∧
      cstr r.name = (cstr name).take 215 ∧
      (cstr r.name).length = min (cstr name).length 215 ∧
      ((cstr namespace_).length ≤ 31 → cstr r.namespace_ = cstr namespace_) ∧
      ((cstr name).length ≤ 215 → cstr r.name = cstr name) := by
  refine ⟨struct_cest.mk function (STRCPY 32 namespace_) (STRCPY 216 name), ?_, rfl,
    STRCPY_length 32 _, STRCPY_last 31 _, cstr_STRCPY 31 _, ?_,
    STRCPY_length 216 _, STRCPY_last 215 _, cstr_STRCPY 215 _, ?_, ?_, ?_⟩
  · simp [Cest__create, Memory.cest_at]
  · show (cstr (STRCPY 32 namespace_)).length = _
    rw [cstr_STRCPY 31, List.length_take, Nat.min_comm]
  · show (cstr (STRCPY 216 name)).length = _
    rw [cstr_STRCPY 215, List.length_take, Nat.min_comm]
  · intro h
    show cstr (STRCPY 32 namespace_) = _
    rw [cstr_STRCPY 31, List.take_of_length_le h]
  · intro h
    show cstr (STRCPY 216 name) = _
    rw [cstr_STRCPY 215, List.take_of_length_le h]

/-- C11, witness: a namespace of 33 characters is stored as its first 31, a
name of one character as it is. -/
theorem C11_create_truncates_witness :
    ∃ r, (Cest__create Cest_init longNamespace "t".toList (fun _ => .pending)).2.cest_at
          (Cest__create Cest_init longNamespace "t".toList (fun _ => .pending)).1 = .ok r ∧
      cstr r.namespace_ = List.replicate 31 'a' ∧ cstr r.name = "t".toList ∧
      r.namespace_.length = 32 ∧ r.name.length = 216 := by
  obtain ⟨r, h1, _, h3, _, h5, _, h7, _, h9, _, _, _⟩ :=
    C11_create_truncates Cest_init longNamespace "t".toList (fun _ => .pending)
  exact ⟨r, h1, h5.trans (by decide), h9.trans (by decide), h3, h7⟩

theorem cstr_of_not_mem : ∀ (s : List Char), NUL ∉ s → cstr s = s
  | [], _ => rfl
  | c :: cs, h => by
    have hc : c ≠ NUL := fun e => h (e ▸ List.mem_cons_self _ _)
    have hcs : NUL ∉ cs := fun e => h (List.mem_cons_of_mem _ e)
    simp [cstr, hc, cstr_of_not_mem cs hcs]

theorem not_mem_cstr : ∀ (s : List Char), NUL ∉ cstr s
  | [] => by simp [cstr]
  | c :: cs => by
    by_cases hc : c = NUL
    · simp [cstr, hc]
    · have := not_mem_cstr cs
      simp [cstr, hc, this]
      exact fun e => hc e.symm

theorem cstr_take_cstr (n : Nat) (s : List Char) : cstr ((cstr s).take n) = (cstr s).take n :=
  cstr_of_not_mem _ (fun h => not_mem_cstr s (List.mem_of_mem_take h))

/-- C12.  For every name longer than 215 characters and every namespace of at
most 31 characters, after the record that `Cest__create` makes of them is
enrolled into an empty registry, the lookup with the namespace and the first
215 characters of the name returns that record, and the name argument of its
status call in `Cest__run_all` is those same 215 characters. -/
theorem C12_truncated_name_consistent (m : Memory) (namespace_ name : List Char)
    (function : Unit → cest_state) (hempty : m.first = 0)
    (hns : (cstr namespace_).length ≤ 31) (hname : 215 < (cstr name).length) :
    ∃ m2, Cest_registrar_for m namespace_ name function = .ok m2 ∧
      Cest__of m2 namespace_ ((cstr name).take 215)
        = .ok (Cest__create m namespace_ name function).1 ∧
      (∃ r, m2.cest_at (Cest__create m namespace_ name function).1 = .ok r ∧
        r.function = function ∧ cstr r.name = (cstr name).take 215 ∧
        (cstr r.name).length = 215) ∧
      ∃ color reset summary ret, Cest__run_all m2
        = .ok ([Printf.status (String.mk (cstr namespace_)) color
            (String.mk ((cstr name).take 215)) reset, summary], ret) := by
  have hreg0 : Registry m [] := ⟨hempty, fun _ he => absurd he (List.not_mem_nil _)⟩
  obtain ⟨hreg1, hnew⟩ := create_registry m [] namespace_ name function hreg0
  obtain ⟨m2, henroll, hreg2, _⟩ := enroll_registry _ [] _ _ hreg1 hnew
  rw [List.nil_append] at hreg2
  have hcns : cstr (STRCPY 32 namespace_) = cstr namespace_ := by
    rw [cstr_STRCPY 31, List.take_of_length_le hns]
  have hcname : cstr (STRCPY 216 name) = (cstr name).take 215 := cstr_STRCPY 215 name
  have hlen : (cstr (STRCPY 216 name)).length = 215 := by
    rw [hcname, List.length_take]; omega
  refine ⟨m2, henroll, ?_, ⟨_, hreg2.2 _ (List.mem_singleton_self _), rfl, hcname, hlen⟩, ?_⟩
  · have hof := of_registry m2 _ namespace_ ((cstr name).take 215) hreg2 (List.cons_ne_nil _ _)
    have hm : matches_pair namespace_ ((cstr name).take 215)
        ((Cest__create m namespace_ name function).1,
          struct_cest.mk function (STRCPY 32 namespace_) (STRCPY 216 name)) := by
      rw [matches_iff_same]
      exact ⟨hcns, by show cstr (STRCPY 216 name) = _; rw [hcname, cstr_take_cstr]⟩
    rw [List.find?_cons_of_pos _ (by simpa using hm)] at hof
    exact hof
  · have hrun := run_all_registry m2 _ hreg2
    simp only [List.map_cons, List.map_nil, List.singleton_append, spec_status] at hrun
    rw [hcns, hcname] at hrun
    exact ⟨_, _, _, _, hrun⟩

theorem cstr_longName : cstr longName = List.replicate 220 'b' :=
  cstr_of_not_mem _ (fun h => absurd (List.eq_of_mem_replicate h) (by decide))

/-- C12, witness: a name of 220 characters registered in the initial memory. -/
theorem C12_truncated_name_consistent_witness :
    Cest_init.first = 0 ∧ (cstr "LL".toList).length ≤ 31 ∧ 215 < (cstr longName).length ∧
    ∃ m2, Cest_registrar_for Cest_init "LL".toList longName (fun _ => .success) = .ok m2 ∧
      Cest__of m2 "LL".toList (List.replicate 215 'b') = .ok 1 := by
  have hl : 215 < (cstr longName).length := by
    rw [cstr_longName, List.length_replicate]; decide
  obtain ⟨m2, h1, h2, _⟩ := C12_truncated_name_consistent Cest_init "LL".toList longName
    (fun _ => .success) rfl (by decide) hl
  have ht : (cstr longName).take 215 = List.replicate 215 'b' := by
    rw [cstr_longName, List.take_replicate]; rfl
  rw [ht] at h2
  exact ⟨rfl, by decide, hl, m2, h1, h2⟩

/-- C13.  For every registry, the colour escape in the status call of each
enrolled record is determined by that record's outcome alone: ESC[31m for
failure, ESC[32m for success, ESC[33m for pending; the reset escape of every
status call and of the summary call is ESC[0m. -/
theorem C13_status_colour (m : Memory) (l : List (Nat × struct_cest)) (h : Registry m l) :
    ∃ lines color successes total ret,
      Cest__run_all m = .ok (lines ++ [Printf.summary color successes "\x1b[0m" total], ret) ∧
      lines.length = l.length ∧
      (∀ (i : Nat) (hi : i < l.length), ∃ ns col name,
        lines[i]? = some (Printf.status ns col name "\x1b[0m") ∧
        (outcome l[i] = .failure → col = "\x1b[31m") ∧
        (outcome l[i] = .success → col = "\x1b[32m") ∧
        (outcome l[i] = .pending → col = "\x1b[33m")) ∧
      "\x1b[31m".toList = [Char.ofNat 27, '[', '3', '1', 'm'] ∧
      "\x1b[32m".toList = [Char.ofNat 27, '[', '3', '2', 'm'] ∧
      "\x1b[33m".toList = [Char.ofNat 27, '[', '3', '3', 'm'] ∧
      "\x1b[0m".toList = [Char.ofNat 27, '[', '0', 'm'] := by
  have hrun := run_all_registry m l h
  simp only [Cest__run_all_summary] at hrun
  refine ⟨_, _, _, _, _, hrun, by simp, ?_, rfl, rfl, rfl, rfl⟩
  intro i hi
  refine ⟨String.mk (cstr l[i].2.namespace_), spec_color (outcome l[i]),
    String.mk (cstr l[i].2.name), by simp [hi, spec_status], ?_, ?_, ?_⟩ <;>
  · intro ho
    rw [ho]
    rfl

/-- C13, witness: the three colours in scenario C. -/
theorem C13_status_colour_witness :
    Registry scenarioC scenarioC_records ∧
    ∃ lines color successes total ret,
      Cest__run_all scenarioC
        = .ok (lines ++ [Printf.summary color successes "\x1b[0m" total], ret) ∧
      lines = [Printf.status "LL" "\x1b[32m" "allocate" "\x1b[0m",
        Printf.status "LL" "\x1b[31m" "append" "\x1b[0m",
        Printf.status "LL" "\x1b[33m" "remove" "\x1b[0m"] := by
  obtain ⟨lines, color, successes, total, ret, h1, _⟩ :=
    C13_status_colour scenarioC scenarioC_records scenarioC_registry
  refine ⟨scenarioC_registry, lines, color, successes, total, ret, h1, ?_⟩
  have h2 := run_all_registry scenarioC scenarioC_records scenarioC_registry
  rw [h2] at h1
  have h3 := congrArg Prod.fst (Result.ok.inj h1)
  have h4 := List.append_inj_left' h3 (by simp)
  rw [← h4]
  decide

/-- C14, counterexample.  The status line of the first record of scenario C is
`LL->` green `allocate` reset `()` and a line break: the `()` follows the reset
escape, so the line is not the concatenation that puts `()` before it. -/
theorem C14_counterexample :
    Registry scenarioC scenarioC_records ∧
    ∃ rest ret, Cest__run_all scenarioC
        = .ok (Printf.status "LL" "\x1b[32m" "allocate" "\x1b[0m" :: rest, ret) ∧
      (Printf.status "LL" "\x1b[32m" "allocate" "\x1b[0m").render
        = "LL->\x1b[32mallocate\x1b[0m()\n" ∧
      (Printf.status "LL" "\x1b[32m" "allocate" "\x1b[0m").render
        ≠ spec_status_text "LL" "\x1b[32m" "allocate" "\x1b[0m" :=
  ⟨scenarioC_registry, _, _,
    run_all_registry scenarioC scenarioC_records scenarioC_registry, by decide, by decide⟩

/-- C14, as amended.  For every registry, the status line `Cest__run_all` writes
for each enrolled record is exactly the concatenation: stored namespace, `->`,
COLOR, stored name, RESET, `()`, line break, in that order (the reset escape
precedes the `()`), where COLOR is the escape for the record's outcome. -/
theorem C14_status_line_text (m : Memory) (l : List (Nat × struct_cest)) (h : Registry m l) :
    ∃ lines summary ret, Cest__run_all m = .ok (lines ++ [summary], ret) ∧
      lines.length = l.length ∧
      ∀ (i : Nat) (hi : i < l.length), ∃ line, lines[i]? = some line ∧
        line.render = String.mk (cstr l[i].2.namespace_) ++ "->" ++ spec_color (outcome l[i])
          ++ String.mk (cstr l[i].2.name) ++ "\x1b[0m" ++ "()" ++ "\n" := by
  refine ⟨_, _, _, run_all_registry m l h, by simp, ?_⟩
  intro i hi
  refine ⟨spec_status l[i], by simp [hi], ?_⟩
  simp only [spec_status, Printf.render, String.append_assoc]
  rfl

/-- C14, witness: the status lines of scenario C. -/
theorem C14_status_line_text_witness :
    Registry scenarioC scenarioC_records ∧
    ∃ lines summary ret, Cest__run_all scenarioC = .ok (lines ++ [summary], ret) ∧
      lines.length = 3 ∧
      ∃ line, lines[1]? = some line ∧ line.render = "LL->\x1b[31mappend\x1b[0m()\n" := by
  obtain ⟨lines, summary, ret, h1, h2, h3⟩ :=
    C14_status_line_text scenarioC scenarioC_records scenarioC_registry
  obtain ⟨line, h4, h5⟩ := h3 1 (by decide)
  exact ⟨scenarioC_registry, lines, summary, ret, h1, h2, line, h4, h5.trans (by decide)⟩

/-- The colour chosen by the code for the summary agrees with the worded one
as long as the counters have not wrapped. -/
theorem summary_color_eq (l : List (Nat × struct_cest)) (hlen : l.length < 2147483648) :
    (if int_wrap (l.countP (fun e => decide (outcome e ≠ .failure)) : Nat)
          < int_wrap (l.length : Nat) then ANSIEscapes.failure
      else if int_wrap (l.countP (fun e => decide (outcome e ≠ .success)) : Nat) ≠ 0
        then ANSIEscapes.pending else ANSIEscapes.success)
      = spec_summary_color (int_wrap (l.countP (fun e => decide (outcome e ≠ .failure)) : Nat))
          (int_wrap (l.length : Nat)) l := by
  have hs : l.countP (fun e => decide (outcome e ≠ .failure)) ≤ l.length :=
    List.countP_le_length _
  have hq : l.countP (fun e => decide (outcome e ≠ .success)) ≤ l.length :=
    List.countP_le_length _
  have hadd := countP_failure_add l
  rw [int_wrap_natCast _ (by omega), int_wrap_natCast _ (by omega),
    int_wrap_natCast _ (by omega)]
  unfold spec_summary_color
  by_cases hlt : ((l.countP (fun e => decide (outcome e ≠ .failure)) : Nat) : Int)
      < ((l.length : Nat) : Int)
  · rw [if_pos hlt, if_pos hlt]; rfl
  · rw [if_neg hlt, if_neg hlt]
    have hnofail : ∀ e ∈ l, outcome e ≠ .failure := by
      rw [← countP_failure_eq_zero]
      omega
    by_cases hany : l.any (fun e => decide (outcome e = .pending)) = true
    · rw [if_pos hany]
      obtain ⟨e, he, hp⟩ := List.any_eq_true.mp hany
      have hpos : 0 < l.countP (fun e => decide (outcome e ≠ .success)) :=
        List.countP_pos_iff.mpr ⟨e, he, by
          have : outcome e = .pending := by simpa using hp
          simp [this]⟩
      rw [if_pos (by omega)]; rfl
    · rw [if_neg hany]
      have hzero : l.countP (fun e => decide (outcome e ≠ .success)) = 0 := by
        rw [List.countP_eq_zero]
        intro e he
        have h1 := hnofail e he
        have h2 : outcome e ≠ .pending := by
          intro hp
          exact hany (List.any_eq_true.mpr ⟨e, he, by simp [hp]⟩)
        cases ho : outcome e
        · exact absurd ho h1
        · simp
        · exact absurd ho h2
      rw [hzero]
      rfl

/-- C15, counterexample.  After the failing record of `twoRecords` and then
2^31 - 1 times its succeeding record are enrolled, no test is pending and the
printed successes, `2^31 - 1`, are not fewer than the printed total, `-2^31`;
the summary is yellow, where the worded rule gives green. -/
theorem C15_counterexample :
    ∃ m, enrollAll twoRecords (2 :: List.replicate 2147483647 1) = .ok m ∧
      Registry m ((2, sample "LL" "fails" .failure) ::
        List.replicate 2147483647 (1, sample "LL" "passes" .success)) ∧
      ∃ lines ret, Cest__run_all m
          = .ok (lines ++ [Printf.summary "\x1b[33m" 2147483647 "\x1b[0m" (-2147483648)], ret) ∧
        spec_summary_color 2147483647 (-2147483648) ((2, sample "LL" "fails" .failure) ::
          List.replicate 2147483647 (1, sample "LL" "passes" .success)) = "\x1b[32m" := by
  have key : ∀ n : Nat, ∃ m, enrollAll twoRecords (2 :: List.replicate n 1) = .ok m ∧
      Registry m ((2, sample "LL" "fails" .failure) ::
        List.replicate n (1, sample "LL" "passes" .success)) ∧
      (∃ lines ret, Cest__run_all m
        = .ok (lines ++ [Cest__run_all_summary (RunState.mk (int_wrap ((n + 1 : Nat) : Int))
            (int_wrap (n : Nat)) (int_wrap ((1 : Nat) + 0)) lines)], ret)) ∧
      List.any ((2, sample "LL" "fails" .failure) ::
        List.replicate n (1, sample "LL" "passes" .success))
        (fun e => decide (outcome e = .pending)) = false := by
    intro n
    obtain ⟨m, h1, h2, _⟩ := enrollAll_registry
      ((2, sample "LL" "fails" .failure) :: List.replicate n (1, sample "LL" "passes" .success))
      twoRecords [] twoRecords_registry (by
        intro e he
        rcases List.mem_cons.mp he with he | he
        · rw [he]; rfl
        · rw [List.eq_of_mem_replicate he]; rfl)
    rw [List.map_cons, List.map_replicate] at h1
    rw [List.nil_append] at h2
    have hc1 : List.countP (fun e => decide (outcome e ≠ .failure))
        ((2, sample "LL" "fails" .failure) :: List.replicate n (1, sample "LL" "passes" .success))
        = n := by
      rw [List.countP_cons, countP_replicate_pos _ _ (by rfl) n]; rfl
    have hc2 : List.countP (fun e => decide (outcome e ≠ .success))
        ((2, sample "LL" "fails" .failure) :: List.replicate n (1, sample "LL" "passes" .success))
        = 1 + 0 := by
      rw [List.countP_cons, countP_replicate_neg _ _ (by decide) n]; rfl
    have hrun := run_all_registry m _ h2
    rw [hc1, hc2, List.length_cons, List.length_replicate] at hrun
    refine ⟨m, h1, h2, ⟨_, _, by rw [hrun]; rfl⟩, ?_⟩
    rw [Bool.eq_false_iff]
    intro hany
    obtain ⟨e, he, hp⟩ := List.any_eq_true.mp hany
    rcases List.mem_cons.mp he with he | he
    · rw [he] at hp; exact absurd hp (by decide)
    · rw [List.eq_of_mem_replicate he] at hp; exact absurd hp (by decide)
  obtain ⟨m, h1, hreg, ⟨lines, ret, h2⟩, hany⟩ := key 2147483647
  have hw1 : int_wrap ((1 : Nat) + 0) = 1 := by decide
  have hw2 : int_wrap ((2147483647 + 1 : Nat) : Int) = -2147483648 := by decide
  have hw3 : int_wrap ((2147483647 : Nat) : Int) = 2147483647 := by decide
  rw [hw1, hw2, hw3] at h2
  refine ⟨m, h1, hreg, lines, ret, h2, ?_⟩
  unfold spec_summary_color
  rw [if_neg (by decide), hany]
  rfl

/-- C15, as amended.  For every registry (the empty one included), the last
line `Cest__run_all` writes is exactly COLOR, the decimal successes count,
` successes`, RESET, ` (of `, the decimal total, `)`, line break; for a registry
of fewer than 2^31 enrolled tests COLOR is red if the printed successes count
is less than the printed total, otherwise yellow if an enrolled test's outcome
was pending, otherwise green; the empty registry gives a green
`0 successes (of 0)`. -/
theorem C15_summary_line (m : Memory) (l : List (Nat × struct_cest)) (h : Registry m l) :
    ∃ lines color successes total ret,
      Cest__run_all m = .ok (lines ++ [Printf.summary color successes "\x1b[0m" total], ret) ∧
      lines.length = l.length ∧
      (Printf.summary color successes "\x1b[0m" total).render
        = color ++ toString successes ++ " successes" ++ "\x1b[0m" ++ " (of "
            ++ toString total ++ ")" ++ "\n" ∧
      (l.length < 2 ^ 31 → color = spec_summary_color successes total l) ∧
      (l = [] → (Printf.summary color successes "\x1b[0m" total).render
        = "\x1b[32m0 successes\x1b[0m (of 0)\n") := by
  have hrun := run_all_registry m l h
  simp only [Cest__run_all_summary] at hrun
  refine ⟨_, _, _, _, _, hrun, by simp, ?_, ?_, ?_⟩
  · simp only [Printf.render, String.append_assoc]
    rfl
  · intro hlen
    exact summary_color_eq l (by norm_num at hlen; omega)
  · intro hnil
    subst hnil
    decide

/-- C15, witness: the summary lines of scenario C and of the empty registry. -/
theorem C15_summary_line_witness :
    Registry scenarioC scenarioC_records ∧ scenarioC_records.length < 2 ^ 31 ∧
    Registry twoRecords [] ∧
    (∃ lines color successes total ret,
      Cest__run_all scenarioC
        = .ok (lines ++ [Printf.summary color successes "\x1b[0m" total], ret) ∧
      color = spec_summary_color successes total scenarioC_records) ∧
    ∃ lines color successes total ret,
      Cest__run_all twoRecords
        = .ok (lines ++ [Printf.summary color successes "\x1b[0m" total], ret) ∧
      (Printf.summary color successes "\x1b[0m" total).render
        = "\x1b[32m0 successes\x1b[0m (of 0)\n" := by
  obtain ⟨lines, color, successes, total, ret, h1, _, _, h4, _⟩ :=
    C15_summary_line scenarioC scenarioC_records scenarioC_registry
  obtain ⟨lines2, color2, successes2, total2, ret2, g1, _, _, _, g5⟩ :=
    C15_summary_line twoRecords [] twoRecords_registry
  exact ⟨scenarioC_registry, by decide, twoRecords_registry,
    ⟨lines, color, successes, total, ret, h1, h4 (by decide)⟩,
    lines2, color2, successes2, total2, ret2, g1, g5 rfl⟩

/-- A lookup that returns leaves the memory it was given; its pointer is the
one `_Cest__of` returns. -/
theorem of_state_eq (namespace_ name : List Char) :
    ∀ (fuel : Nat) (m : Memory) (p : Nat),
      _Cest__of_state namespace_ name fuel m p
        = (_Cest__of m namespace_ name fuel p).bind fun c => .ok (c, m)
  | 0, _, _ => rfl
  | fuel + 1, m, p => by
    unfold _Cest__of_state _Cest__of
    cases hnode : m.node_at p with
    | ok node =>
      simp only [Result.bind_ok]
      cases hlast : m.cest_at node.cest with
      | ok last =>
        simp only [Result.bind_ok]
        by_cases hm : strcmp last.namespace_ namespace_ = 0 ∧ strcmp last.name name = 0
        · rw [if_pos hm, if_pos hm]; rfl
        · rw [if_neg hm, if_neg hm]
          by_cases hnext : node.next ≠ 0
          · rw [if_pos hnext, if_pos hnext]
            exact of_state_eq namespace_ name fuel m node.next
          · rw [if_neg hnext, if_neg hnext]; rfl
      | exited _ => rfl
      | nullAccess => rfl
      | badAccess => rfl
      | timeout => rfl
    | exited _ => rfl
    | nullAccess => rfl
    | badAccess => rfl
    | timeout => rfl

/-- C16.  For every registry and every pair that an enrolled record carries:
the first lookup returns a record stored under the pair and leaves a memory
that holds the same registry (the same records in the same order, no node and
no record changed); the second lookup, run in the memory the first one left,
returns the same record and again leaves the registry unchanged. -/
theorem C16_lookup_twice (m : Memory) (l : List (Nat × struct_cest))
    (namespace_ name : List Char) (h : Registry m l)
    (hex : ∃ e ∈ l, same_pair namespace_ name e) :
    ∃ c r m1 m2,
      Cest__of_state m namespace_ name = .ok (c, m1) ∧
      Cest__of_state m1 namespace_ name = .ok (c, m2) ∧
      Cest__of_twice m namespace_ name = .ok ((c, c), m2) ∧
      Registry m1 l ∧ Registry m2 l ∧
      m1.nodes = m.nodes ∧ m1.first = m.first ∧ m1.cests = m.cests ∧
      m2.nodes = m.nodes ∧ m2.first = m.first ∧ m2.cests = m.cests ∧
      (c, r) ∈ l ∧ m2.cest_at c = .ok r ∧ same_pair namespace_ name (c, r) := by
  obtain ⟨i, hi, hof, hpair, _⟩ := of_registry_first m l namespace_ name h hex
  have hstate : Cest__of_state m namespace_ name = .ok (l[i].1, m) := by
    have := of_state_eq namespace_ name m.fuel m m.first
    unfold Cest__of at hof
    rw [hof] at this
    exact this
  refine ⟨l[i].1, l[i].2, m, m, hstate, hstate, ?_, h, h, rfl, rfl, rfl, rfl, rfl, rfl,
    List.getElem_mem _, h.2 _ (List.getElem_mem _), hpair⟩
  simp [Cest__of_twice, hstate]

/-- C16, witness: the pair carried twice in `scenarioDup`. -/
theorem C16_lookup_twice_witness :
    Registry scenarioDup scenarioDup_records ∧
    (∃ e ∈ scenarioDup_records, same_pair "LL".toList "append".toList e) ∧
    ∃ c r m1 m2,
      Cest__of_state scenarioDup "LL".toList "append".toList = .ok (c, m1) ∧
      Cest__of_state m1 "LL".toList "append".toList = .ok (c, m2) ∧
      Cest__of_twice scenarioDup "LL".toList "append".toList = .ok ((c, c), m2) ∧
      Registry m2 scenarioDup_records ∧ (c, r) ∈ scenarioDup_records := by
  have hex : ∃ e ∈ scenarioDup_records, same_pair "LL".toList "append".toList e :=
    ⟨(2, sample "LL" "append" .failure), List.mem_cons_of_mem _ (List.mem_cons_self _ _),
      by decide⟩
  obtain ⟨c, r, m1, m2, h1, h2, h3, _, h5, _, _, _, _, _, _, h12, _⟩ :=
    C16_lookup_twice scenarioDup scenarioDup_records "LL".toList "append".toList
      scenarioDup_registry hex
  exact ⟨scenarioDup_registry, hex, c, r, m1, m2, h1, h2, h3, h5, h12⟩

/-- C17.  For every boolean fact and every rest of a test body, the body
`ASSERT(FACT); rest` returns failure at once when the fact is false, whatever
the rest is and with the variables left as they were, and does what the rest
does when the fact is true.  Hence a body made of `ASSERT`s and ended by
`SUCCEED` returns success if and only if none of the asserted facts is false,
and failure otherwise. -/
theorem C17_assert_short_circuits (σ : Type) (s : σ) :
    (∀ (FACT : σ → Bool) (rest : Body σ), FACT s = false →
      ASSERT FACT rest s = (cest_state.failure, s)) ∧
    (∀ (FACT : σ → Bool) (rest : Body σ), FACT s = true → ASSERT FACT rest s = rest s) ∧
    ∀ facts : List (σ → Bool),
      ((asserted_body facts s).1 = .success ↔ ∀ f ∈ facts, f s = true) ∧
      ((asserted_body facts s).1 = .failure ↔ ∃ f ∈ facts, f s = false) := by
  refine ⟨fun FACT rest hf => by simp [ASSERT, hf, FAIL],
    fun FACT rest hf => by simp [ASSERT, hf], ?_⟩
  intro facts
  induction facts with
  | nil => simp [asserted_body, SUCCEED]
  | cons f fs ih =>
    have hstep : asserted_body (f :: fs) s = ASSERT f (asserted_body fs) s := rfl
    rw [hstep]
    by_cases hf : f s = true
    · simp [ASSERT, hf, ih.1, ih.2]
    · have hf2 : f s = false := by simpa using hf
      simp [ASSERT, hf2, FAIL]

/-- C17, witness: bodies over one integer variable whose value is `5`. -/
theorem C17_assert_short_circuits_witness :
    ASSERT (fun n : Nat => decide (n = 0)) PEND 5 = (cest_state.failure, 5) ∧
    ASSERT (fun n : Nat => decide (3 < n)) PEND 5 = (cest_state.pending, 5) ∧
    (asserted_body [fun n : Nat => decide (3 < n), fun n => decide (n < 10)] 5).1 = .success ∧
    (asserted_body [fun n : Nat => decide (3 < n), fun n => decide (n < 4)] 5).1 = .failure := by
  obtain ⟨h1, h2, h3⟩ := C17_assert_short_circuits Nat 5
  refine ⟨h1 _ PEND (by decide), (h2 _ PEND (by decide)).trans rfl, ?_, ?_⟩
  · exact (h3 _).1.mpr (by decide)
  · exact (h3 _).2.mpr ⟨fun n => decide (n < 4), by simp, by decide⟩

/-- The state in which the loop of `Cest__run_all` ends on a registry. -/
theorem run_all_loop_registry (m : Memory) (l : List (Nat × struct_cest)) (h : Registry m l) :
    Cest__run_all_loop m m.fuel m.first (RunState.mk 0 0 0 [])
      = .ok (RunState.mk (int_wrap l.length)
          (int_wrap (l.countP (fun e => decide (outcome e ≠ .failure))))
          (int_wrap (l.countP (fun e => decide (outcome e ≠ .success))))
          (l.map spec_status)) := by
  have hlen : l.length ≤ m.fuel := by
    have := chain_length_le m.nodes _ _ h.1
    simp [Memory.fuel] at this ⊢
    omega
  have hloop := run_all_loop_ok m l m.first m.fuel (RunState.mk 0 0 0 []) h.1 h.2 hlen
  obtain ⟨h1, h2, h3, h4⟩ := run_all_fold l (RunState.mk 0 0 0 []) 0 0 0 rfl rfl rfl
  simp only [zero_add, List.nil_append] at h1 h2 h3 h4
  rw [hloop, ← h1, ← h2, ← h3, ← h4]

/-- C18, counterexample.  In scenario C one test is pending, and the loop of
`Cest__run_all` ends with its pending counter at `2`: the failing test was
counted too. -/
theorem C18_counterexample :
    Registry scenarioC scenarioC_records ∧
    scenarioC_records.map outcome = [.success, .failure, .pending] ∧
    scenarioC_records.countP (fun e => decide (outcome e = .pending)) = 1 ∧
    ∃ st, Cest__run_all_loop scenarioC scenarioC.fuel scenarioC.first (RunState.mk 0 0 0 [])
        = .ok st ∧ st.pends = 2 :=
  ⟨scenarioC_registry, rfl, rfl, _,
    run_all_loop_registry scenarioC scenarioC_records scenarioC_registry, rfl⟩

/-- C18, as amended.  For every registry, the loop of `Cest__run_all` ends, and
each pass through its body increments the pending counter exactly when the
outcome of the test is not success, that is for failure and for pending; for a
registry of fewer than 2^31 enrolled tests the counter ends at the number of
enrolled tests whose outcome is not success. -/
theorem C18_pends_counts_non_successes (m : Memory) (l : List (Nat × struct_cest))
    (h : Registry m l) :
    (∃ st, Cest__run_all_loop m m.fuel m.first (RunState.mk 0 0 0 []) = .ok st ∧
      (l.length < 2 ^ 31 →
        st.pends = (l.countP (fun e => decide (outcome e ≠ .success)) : Nat))) ∧
    ∀ (current : struct_cest) (st : RunState),
      (Cest__run_all_body current .failure st).pends = int_wrap (st.pends + 1) ∧
      (Cest__run_all_body current .pending st).pends = int_wrap (st.pends + 1) ∧
      (Cest__run_all_body current .success st).pends = st.pends := by
  refine ⟨⟨_, run_all_loop_registry m l h, ?_⟩, fun current st => ⟨rfl, rfl, rfl⟩⟩
  intro hlen
  have hq : l.countP (fun e => decide (outcome e ≠ .success)) ≤ l.length :=
    List.countP_le_length _
  exact int_wrap_natCast _ (by norm_num at hlen; omega)

/-- C18, witness: the pending counter in scenario C. -/
theorem C18_pends_counts_non_successes_witness :
    Registry scenarioC scenarioC_records ∧ scenarioC_records.length < 2 ^ 31 ∧
    ∃ st, Cest__run_all_loop scenarioC scenarioC.fuel scenarioC.first (RunState.mk 0 0 0 [])
        = .ok st ∧ st.pends = ((2 : Nat) : Int) := by
  obtain ⟨⟨st, h1, h2⟩, _⟩ :=
    C18_pends_counts_non_successes scenarioC scenarioC_records scenarioC_registry
  exact ⟨scenarioC_registry, by decide, st, h1, h2 (by decide)⟩

/-- C19.  On a registry that is not empty `Cest__of` never dereferences a null
or unallocated pointer and does not run out of steps: as many steps as there
are enrolled records are enough, and it ends with a record or with
`exit(1337)`.  On the empty registry the first access, `last_node->cest` with
`last_node == NULL`, is the null access: the lookup yields neither a record nor
`exit(1337)`. -/
theorem C19_lookup_null_access (m : Memory) (l : List (Nat × struct_cest))
    (namespace_ name : List Char) (h : Registry m l) :
    (l ≠ [] →
      Cest__of m namespace_ name ≠ .nullAccess ∧
      Cest__of m namespace_ name ≠ .badAccess ∧
      Cest__of m namespace_ name ≠ .timeout ∧
      ((∃ e ∈ l, Cest__of m namespace_ name = .ok e.1) ∨
        Cest__of m namespace_ name = .exited 1337) ∧
      ∀ fuel, l.length ≤ fuel →
        _Cest__of m namespace_ name fuel m.first = Cest__of m namespace_ name) ∧
    (l = [] →
      Cest__of m namespace_ name = .nullAccess ∧
      (∀ c, Cest__of m namespace_ name ≠ .ok c) ∧
      Cest__of m namespace_ name ≠ .exited 1337) := by
  constructor
  · intro hne
    have hof := of_registry m l namespace_ name h hne
    have hfuel : ∀ fuel, l.length ≤ fuel →
        _Cest__of m namespace_ name fuel m.first = Cest__of m namespace_ name := by
      intro fuel hf
      rw [hof]
      exact of_chain m namespace_ name l m.first fuel hne h.1 h.2 hf
    cases hfind : l.find? (fun e => decide (matches_pair namespace_ name e)) with
    | none =>
      rw [hfind] at hof
      rw [hof] at hfuel ⊢
      exact ⟨by simp, by simp, by simp, Or.inr rfl, hfuel⟩
    | some b =>
      rw [hfind] at hof
      rw [hof] at hfuel ⊢
      exact ⟨by simp, by simp, by simp, Or.inl ⟨b, List.mem_of_find?_eq_some hfind, rfl⟩, hfuel⟩
  · intro hnil
    subst hnil
    have hfirst : m.first = 0 := h.1
    have hnull : Cest__of m namespace_ name = .nullAccess := by
      simp [Cest__of, Memory.fuel, _Cest__of, Memory.node_at, hfirst, Result.bind]
    rw [hnull]
    exact ⟨rfl, by simp, by simp⟩

/-- C19, witness: a lookup in scenario C and a lookup in the empty registry. -/
theorem C19_lookup_null_access_witness :
    Registry scenarioC scenarioC_records ∧ scenarioC_records ≠ [] ∧
    Cest__of scenarioC "LL".toList "remove".toList ≠ .nullAccess ∧
    _Cest__of scenarioC "LL".toList "remove".toList 3 scenarioC.first
      = Cest__of scenarioC "LL".toList "remove".toList ∧
    Registry Cest_init [] ∧
    Cest__of Cest_init "LL".toList "remove".toList = .nullAccess := by
  have h1 := (C19_lookup_null_access scenarioC scenarioC_records "LL".toList "remove".toList
    scenarioC_registry).1 (List.cons_ne_nil _ _)
  have hinit : Registry Cest_init [] := ⟨rfl, fun _ he => absurd he (List.not_mem_nil _)⟩
  have h2 := (C19_lookup_null_access Cest_init [] "LL".toList "remove".toList hinit).2 rfl
  exact ⟨scenarioC_registry, List.cons_ne_nil _ _, h1.1, h1.2.2.2.2 3 (le_refl _), hinit, h2.1⟩

/-- C20.  For every registry of fewer than 2^31 records, the loop of
`Cest__run_all` ends with counters that satisfy 0 <= successes <= total and
total equal to the number of enrolled records, and the value returned, total -
successes, lies between 0 and the number of enrolled records inclusive. -/
theorem C20_counter_bounds (m : Memory) (l : List (Nat × struct_cest)) (h : Registry m l)
    (hlen : l.length < 2 ^ 31) :
    ∃ st out, Cest__run_all_loop m m.fuel m.first (RunState.mk 0 0 0 []) = .ok st ∧
      Cest__run_all m = .ok (out, st.total - st.successes) ∧
      0 ≤ st.successes ∧ st.successes ≤ st.total ∧ st.total = (l.length : Nat) ∧
      0 ≤ st.total - st.successes ∧ st.total - st.successes ≤ (l.length : Nat) := by
  have hs : l.countP (fun e => decide (outcome e ≠ .failure)) ≤ l.length :=
    List.countP_le_length _
  have hadd := countP_failure_add l
  norm_num at hlen
  have hloop := run_all_loop_registry m l h
  have hrun : ∃ out, Cest__run_all m
      = .ok (out, ((l.countP (fun e => decide (outcome e = .failure)) : Nat) : Int)) := by
    have hr := run_all_registry m l h
    rw [int_wrap_natCast (l.countP (fun e => decide (outcome e = .failure))) (by omega)] at hr
    exact ⟨_, hr⟩
  obtain ⟨out, hout⟩ := hrun
  rw [int_wrap_natCast _ (by omega), int_wrap_natCast _ (by omega)] at hloop
  refine ⟨_, out, hloop, ?_, ?_, ?_, rfl, ?_, ?_⟩
  · rw [hout]
    congr 2
    dsimp only
    omega
  all_goals
    dsimp only
    omega

/-- C20, witness: the counters in scenario C. -/
theorem C20_counter_bounds_witness :
    Registry scenarioC scenarioC_records ∧ scenarioC_records.length < 2 ^ 31 ∧
    ∃ st out, Cest__run_all_loop scenarioC scenarioC.fuel scenarioC.first (RunState.mk 0 0 0 [])
        = .ok st ∧
      Cest__run_all scenarioC = .ok (out, st.total - st.successes) ∧
      st.total = 3 ∧ 0 ≤ st.total - st.successes := by
  obtain ⟨st, out, h1, h2, _, _, h5, h6, _⟩ :=
    C20_counter_bounds scenarioC scenarioC_records scenarioC_registry (by decide)
  exact ⟨scenarioC_registry, by decide, st, out, h1, h2, h5, h6⟩

end CestC
